import Mathlib

/-!
# Verification of `main.py` (bpmclock static site builder)

A shallow embedding of the build script `src/main.py`.  The ambient
filesystem is modelled as an association list from paths (lists of name
components, rooted at the directory containing the script) to entries
(regular files with string contents, or directories).  Fallible
operations return `Except (Err × FS) FS`: on error the filesystem state
at the moment the exception was raised is carried along, mirroring
Python exceptions, which do not roll back filesystem effects.

The templating engine (Jinja2) is an external collaborator; the parts
of its documented behaviour that the script relies on (template lookup
through `FileSystemLoader`, `{{ name }}` interpolation, the default
`Undefined` rendering as the empty string, and `autoescape` HTML
escaping as in markupsafe) are modelled by `parseNodes`/`renderNodes`.
-/

set_option autoImplicit false

namespace BpmClock

/-- A filesystem path, as the list of name components below the
directory that contains `main.py` (`Path(__file__).parent`). -/
abbrev Path := List String

/-- A filesystem entry: a regular file with its byte contents
(modelled as a string), or a directory. -/
inductive Entry where
  | file (content : String)
  | dir
  deriving DecidableEq, Repr

/-- A filesystem: a finite listing of paths and their entries.  The
list order is the directory-enumeration order seen by `glob`/`iterdir`. -/
abbrev FS := List (Path × Entry)

/-- Error conditions raised by the modelled filesystem and template
operations (Python exception classes, collapsed to one taxonomy). -/
inductive Err where
  | fileExists
  | fileNotFound
  | isADirectory
  | notADirectory
  | templateNotFound
  | templateRenderError
  deriving DecidableEq, Repr

/-- Look a path up in the filesystem (first matching entry). -/
def lookup : FS → Path → Option Entry
  | [], _ => none
  | (q, e) :: fs, p => if q = p then some e else lookup fs p

/-- `Path.exists()`: the root always exists; other paths exist when
they have an entry. -/
def pathExists (fs : FS) (p : Path) : Bool :=
  p.isEmpty || (lookup fs p).isSome

/-- `Path.is_dir()`: the root is a directory; other paths are
directories when their entry is `Entry.dir`. -/
def isDir (fs : FS) (p : Path) : Bool :=
  p.isEmpty ||
    match lookup fs p with
    | some .dir => true
    | _ => false

/-- `Path.is_file()`: true exactly when the entry is a regular file. -/
def isFile (fs : FS) (p : Path) : Bool :=
  match lookup fs p with
  | some (.file _) => true
  | _ => false

/-- Overwrite the first entry at `p` with a regular file holding `c`,
or append a fresh entry when `p` is absent (the effect of
`open(p, "w").write(c)` once the preconditions hold). -/
def setFile : FS → Path → String → FS
  | [], p, c => [(p, .file c)]
  | (q, e) :: fs, p, c =>
    if q = p then (q, .file c) :: fs else (q, e) :: setFile fs p c

/-- `open(p, "w", encoding="utf-8")` followed by writing `c`: fails if
`p` is a directory or if the parent directory is missing; otherwise
truncates/creates the file. -/
def writeFile (fs : FS) (p : Path) (c : String) : Except (Err × FS) FS :=
  if isDir fs p then .error (.isADirectory, fs)
  else if isDir fs p.dropLast then .ok (setFile fs p c)
  else .error (.fileNotFound, fs)

/-- `Path.mkdir(exist_ok=True)` (no `parents`): succeed silently when
`p` is already a directory, fail when `p` exists as a file, create the
directory when the parent exists, and fail otherwise. -/
def mkdirOne (fs : FS) (p : Path) : Except (Err × FS) FS :=
  match lookup fs p with
  | some .dir => .ok fs
  | some (.file _) => .error (.fileExists, fs)
  | none =>
    if isDir fs p.dropLast then .ok (fs ++ [(p, .dir)])
    else .error (.fileNotFound, fs)

/-- The non-empty prefixes of a path, shortest first. -/
def prefixesOf (p : Path) : List Path :=
  (List.range p.length).map (fun i => p.take (i + 1))

/-- `Path.mkdir(parents=True, exist_ok=True)`: ensure every prefix of
the path is a directory, creating missing ones. -/
def mkdirParents (fs : FS) (p : Path) : Except (Err × FS) FS :=
  go fs (prefixesOf p)
where
  /-- Run `mkdirOne` on each listed prefix in turn. -/
  go : FS → List Path → Except (Err × FS) FS
    | fs, [] => .ok fs
    | fs, q :: qs =>
      match mkdirOne fs q with
      | .ok fs' => go fs' qs
      | .error e => .error e

/-- `name` of an immediate child of directory `d`, if `q` is one. -/
def childName (d q : Path) : Option String :=
  match q.drop d.length with
  | [n] => if q.take d.length = d then some n else none
  | _ => none

/-- The names of the immediate children of directory `d`, in
filesystem listing order (`Path.iterdir()` name sequence). -/
def childNames (fs : FS) (d : Path) : List String :=
  fs.filterMap (fun pe => childName d pe.1)

/-- `pat` is a prefix of the character list. -/
def startsWithChars : List Char → List Char → Bool
  | [], _ => true
  | _ :: _, [] => false
  | p :: ps, c :: cs => p == c && startsWithChars ps cs

/-- `suffix` is a suffix of `s` (the extension test done by a
`*.ext` glob pattern). -/
def strHasSuffix (s suffix : String) : Bool :=
  startsWithChars suffix.data.reverse s.data.reverse

/-- `Path.glob("*" + ext)`: the children of `d` whose names end in
`ext`, in listing order (pathlib's glob matches directories too). -/
def globExt (fs : FS) (d : Path) (ext : String) : List String :=
  (childNames fs d).filter (fun n => strHasSuffix n ext)

/-- `shutil.copy2(srcP, destP)`: read the source file and write its
contents to the destination; a directory or missing source raises. -/
def copy2 (fs : FS) (srcP destP : Path) : Except (Err × FS) FS :=
  match lookup fs srcP with
  | some (.file c) => writeFile fs destP c
  | some .dir => .error (.isADirectory, fs)
  | none => .error (.fileNotFound, fs)

/-- `build` directory (`Path(__file__).parent / "build"`). -/
def build_dir : Path := ["build"]

/-- `build/static`. -/
def build_static : Path := ["build", "static"]

/-- `src/static`. -/
def src_static : Path := ["src", "static"]

/-- `ensure_build_dirs` from `main.py`: create `build` and the four
static subdirectories, idempotently, and return (implicitly)
`build_dir`. -/
def ensure_build_dirs (fs : FS) : Except (Err × FS) FS :=
  match mkdirOne fs build_dir with
  | .error e => .error e
  | .ok fs =>
  match mkdirParents fs (build_static ++ ["css"]) with
  | .error e => .error e
  | .ok fs =>
  match mkdirParents fs (build_static ++ ["js"]) with
  | .error e => .error e
  | .ok fs =>
  match mkdirParents fs (build_static ++ ["images"]) with
  | .error e => .error e
  | .ok fs => mkdirParents fs (build_static ++ ["fonts"])

/-- `src/static/js`. -/
def js_src : Path := src_static ++ ["js"]

/-- `build/static/js`. -/
def js_dest : Path := build_static ++ ["js"]

/-- `src/static/fonts`. -/
def fonts_src : Path := src_static ++ ["fonts"]

/-- `build/static/fonts`. -/
def fonts_dest : Path := build_static ++ ["fonts"]

/-- `src/static/images`. -/
def images_src : Path := src_static ++ ["images"]

/-- `build/static/images`. -/
def images_dest : Path := build_static ++ ["images"]

/-- The copy loop shared by the JS and fonts categories: copy each
listed name from `srcDir` to `destDir`, stopping at the first error. -/
def copyGlob (srcDir destDir : Path) : FS → List String → Except (Err × FS) FS
  | fs, [] => .ok fs
  | fs, n :: ns =>
    match copy2 fs (srcDir ++ [n]) (destDir ++ [n]) with
    | .ok fs' => copyGlob srcDir destDir fs' ns
    | .error e => .error e

/-- The images copy loop: `for img_file in img_src.iterdir(): if
img_file.is_file(): shutil.copy2(...)` — non-regular entries are
skipped. -/
def copyImages : FS → List String → Except (Err × FS) FS
  | fs, [] => .ok fs
  | fs, n :: ns =>
    if isFile fs (images_src ++ [n]) then
      match copy2 fs (images_src ++ [n]) (images_dest ++ [n]) with
      | .ok fs' => copyImages fs' ns
      | .error e => .error e
    else copyImages fs ns

/-- The JS block of `copy_static_assets`: `if js_src.exists(): for
js_file in js_src.glob("*.js"): shutil.copy2(...)`.  `Path.glob` on a
non-directory silently yields nothing, so a `js_src` that exists as a
regular file contributes no matches (and on a real filesystem a
non-directory has no child entries, so `globExt` is empty there). -/
def jsPhase (fs : FS) : Except (Err × FS) FS :=
  if pathExists fs js_src then copyGlob js_src js_dest fs (globExt fs js_src ".js")
  else .ok fs

/-- The fonts block of `copy_static_assets` (pattern `*.woff2`);
like the JS block, globbing a non-directory silently yields
nothing. -/
def fontsPhase (fs : FS) : Except (Err × FS) FS :=
  if pathExists fs fonts_src then
    copyGlob fonts_src fonts_dest fs (globExt fs fonts_src ".woff2")
  else .ok fs

/-- The images block of `copy_static_assets`: `if img_src.exists() and
any(img_src.iterdir()):` then the guarded copy loop.  `iterdir` on a
non-directory raises `NotADirectoryError`. -/
def imagesPhase (fs : FS) : Except (Err × FS) FS :=
  if pathExists fs images_src then
    if isDir fs images_src then
      if (childNames fs images_src).isEmpty then .ok fs
      else copyImages fs (childNames fs images_src)
    else .error (.notADirectory, fs)
  else .ok fs

/-- `copy_static_assets` from `main.py`: the JS, fonts and images
blocks in source order. -/
def copy_static_assets (fs : FS) : Except (Err × FS) FS :=
  match jsPhase fs with
  | .error e => .error e
  | .ok fs =>
  match fontsPhase fs with
  | .error e => .error e
  | .ok fs => imagesPhase fs

/-- A Jinja2 `Environment` as configured by `setup_jinja_env`: the
`FileSystemLoader` search directory and the three flags the source
sets. -/
structure Env where
  templateDir : Path
  autoescape : Bool
  trim_blocks : Bool
  lstrip_blocks : Bool
  deriving DecidableEq, Repr

/-- `setup_jinja_env` from `main.py`: constructs the environment for
`src/templates` with `autoescape=True, trim_blocks=True,
lstrip_blocks=True`.  Constructing `Environment`/`FileSystemLoader`
performs no filesystem access, so the function cannot fail, whatever
the filesystem looks like. -/
def setup_jinja_env (_ : FS) : Except (Err × FS) Env :=
  .ok { templateDir := ["src", "templates"]
        autoescape := true
        trim_blocks := true
        lstrip_blocks := true }

/-- A parsed template node: literal text, a `\x7b\x7b name \x7d\x7d`
interpolation, or a call expression `\x7b\x7b name() \x7d\x7d`. -/
inductive Node where
  | text (s : String)
  | varRef (name : String)
  | callExpr (name : String)
  deriving DecidableEq, Repr

/-- Split a character list at the first occurrence of `pat`, returning
the part before and the part after the occurrence. -/
def splitOnce (pat : List Char) : List Char → Option (List Char × List Char)
  | [] => none
  | c :: cs =>
    if startsWithChars pat (c :: cs) then some ([], (c :: cs).drop pat.length)
    else
      match splitOnce pat cs with
      | some (pre, post) => some (c :: pre, post)
      | none => none

/-- Strip leading and trailing spaces from a character list. -/
def trimSpaces (s : List Char) : List Char :=
  ((s.dropWhile (· == ' ')).reverse.dropWhile (· == ' ')).reverse

/-- Classify a trimmed interpolation body as a plain variable
reference or a zero-argument call. -/
def parseExpr (e : List Char) : Node :=
  let t := trimSpaces e
  if startsWithChars [')', '('] t.reverse then
    .callExpr (String.mk (trimSpaces (t.dropLast.dropLast)))
  else .varRef (String.mk t)

/-- Modelled from Jinja2's documented template syntax: split the
source into literal text and `\x7b\x7b ... \x7d\x7d` interpolation
nodes (block tags and unterminated delimiters do not occur in the
templates this development reasons about).  `fuel` bounds the
recursion and exceeds the source length at every call site. -/
def parseNodes : Nat → List Char → List Node
  | _, [] => []
  | 0, s => [.text (String.mk s)]
  | fuel + 1, s =>
    match splitOnce ['\x7b', '\x7b'] s with
    | none => [.text (String.mk s)]
    | some (pre, rest) =>
      match splitOnce ['\x7d', '\x7d'] rest with
      | none => [.text (String.mk s)]
      | some (expr, rest2) =>
        .text (String.mk pre) :: parseExpr expr :: parseNodes fuel rest2

/-- markupsafe's `escape` on one character: the five HTML-special
characters become entities. -/
def escChar (c : Char) : List Char :=
  if c == '&' then "&amp;".data
  else if c == '<' then "&lt;".data
  else if c == '>' then "&gt;".data
  else if c == '"' then "&#34;".data
  else if c == '\'' then "&#39;".data
  else [c]

/-- markupsafe's `escape`, applied to substituted values when
`autoescape` is on. -/
def htmlEscape (s : String) : String :=
  String.mk (s.data.map escChar).flatten

/-- First binding of key `k` in a context mapping. -/
def lookupCtx : List (String × String) → String → Option String
  | [], _ => none
  | (k', v) :: ctx, k => if k' = k then some v else lookupCtx ctx k

/-- Modelled from Jinja2's documented rendering semantics: literal
text is emitted as-is; `\x7b\x7b name \x7d\x7d` substitutes the context
value (escaped when `autoescape` is set) and substitutes the *empty
string* when the key is missing (the default `Undefined` class);
calling a context value raises at render time (`UndefinedError` for a
missing key, `TypeError` for a string value). -/
def renderNodes (env : Env) (ctx : List (String × String)) : List Node → Except Err String
  | [] => .ok ""
  | .text t :: ns =>
    match renderNodes env ctx ns with
    | .ok r => .ok (t ++ r)
    | .error e => .error e
  | .varRef n :: ns =>
    let v :=
      match lookupCtx ctx n with
      | some s => if env.autoescape then htmlEscape s else s
      | none => ""
    match renderNodes env ctx ns with
    | .ok r => .ok (v ++ r)
    | .error e => .error e
  | .callExpr _ :: _ => .error .templateRenderError

/-- `Template.render(**context)` on a template source string. -/
def renderString (env : Env) (ctx : List (String × String)) (s : String) : Except Err String :=
  renderNodes env ctx (parseNodes (s.data.length + 1) s.data)

/-- `Environment.get_template(name)`: `FileSystemLoader` resolves the
name under the template directory; a missing or non-regular entry
raises `TemplateNotFound`. -/
def get_template (fs : FS) (env : Env) (name : String) : Except Err String :=
  match lookup fs (env.templateDir ++ [name]) with
  | some (.file c) => .ok c
  | _ => .error .templateNotFound

/-- `render_template` from `main.py`: resolve the template, render it
with the context, then open the output path for writing and write the
HTML.  (`context=None` defaults to the empty context at the call
site.) -/
def render_template (fs : FS) (env : Env) (template_name : String) (output_path : Path)
    (context : List (String × String)) : Except (Err × FS) FS :=
  match get_template fs env template_name with
  | .error e => .error (e, fs)
  | .ok tmpl =>
    match renderString env context tmpl with
    | .error e => .error (e, fs)
    | .ok html => writeFile fs output_path html

/-- The context literal built in `build_site`. -/
def siteContext : List (String × String) :=
  [("title", "Tap Tempo Perfectionist - Rhythm Training"),
   ("description",
    "Train your rhythm with PID controller feedback. Develop metronome-like consistency.")]

/-- `build_site` from `main.py`: environment setup, directory
provisioning, asset copying, then rendering `index.html` into the
build directory. -/
def build_site (fs : FS) : Except (Err × FS) FS :=
  match setup_jinja_env fs with
  | .error e => .error e
  | .ok env =>
  match ensure_build_dirs fs with
  | .error e => .error e
  | .ok fs =>
  match copy_static_assets fs with
  | .error e => .error e
  | .ok fs => render_template fs env "index.html" (build_dir ++ ["index.html"]) siteContext

/-- A path lies below the `build` output root. -/
def underBuild (p : Path) : Bool :=
  p.head? == some "build"

/-- The part of the filesystem outside the `build` output root.  The
build pipeline writes only under `build`, so this restriction is
invariant across all of its operations. -/
def nonBuild : FS → FS
  | [] => []
  | (p, e) :: fs => if underBuild p then nonBuild fs else (p, e) :: nonBuild fs

/-- The five directories `ensure_build_dirs` is responsible for,
plus the intermediate `build/static`. -/
def provisionedDirs : List Path :=
  [build_dir, build_static, build_static ++ ["css"], build_static ++ ["js"],
   build_static ++ ["images"], build_static ++ ["fonts"]]

/-- The environment value `setup_jinja_env` constructs. -/
def defaultEnv : Env :=
  { templateDir := ["src", "templates"]
    autoescape := true
    trim_blocks := true
    lstrip_blocks := true }

/-! ## Concrete filesystems used as test inputs -/

/-- A source tree whose `src/static/js` holds exactly the regular
files `a.js` (contents `ca`) and `b.js` (contents `cb`) plus one
non-JS file. -/
def fsC1 (ca cb : String) : FS :=
  [ (["src"], .dir), (["src", "static"], .dir),
    (["src", "static", "js"], .dir),
    (["src", "static", "js", "a.js"], .file ca),
    (["src", "static", "js", "b.js"], .file cb),
    (["src", "static", "js", "readme.txt"], .file "not a script") ]

/-- A provisioned source tree with JS and fonts categories populated
but no `src/static/images` directory at all. -/
def fsC4 : FS :=
  [ (["src"], .dir), (["src", "static"], .dir),
    (["src", "static", "js"], .dir),
    (["src", "static", "js", "app.js"], .file "let x = 1;"),
    (["src", "static", "fonts"], .dir),
    (["src", "static", "fonts", "r.woff2"], .file "FONT") ]

/-- A tree whose template `t.html` interpolates the context key
`title`, for exercising rendering with a missing key. -/
def fsC5 : FS :=
  [ (["src"], .dir), (["src", "templates"], .dir),
    (["src", "templates", "t.html"], .file "A\x7b\x7b title \x7d\x7dB"),
    (["build"], .dir) ]

/-- A provisioned tree whose template interpolates `title` and
`description`. -/
def fsC7 : FS :=
  [ (["src"], .dir), (["src", "templates"], .dir),
    (["src", "templates", "index.html"],
      .file "<h1>\x7b\x7b title \x7d\x7d</h1><p>\x7b\x7b description \x7d\x7d</p>"),
    (["build"], .dir) ]

/-- A source tree in which `src/static/js` holds a *directory* named
`lib.js`, which the glob pattern `*.js` matches. -/
def fsC9 : FS :=
  [ (["src"], .dir), (["src", "static"], .dir),
    (["src", "static", "js"], .dir),
    (["src", "static", "js", "lib.js"], .dir) ]

/-- A source tree in which `src/static/fonts` holds a *directory*
named `old.woff2`. -/
def fsC9f : FS :=
  [ (["src"], .dir), (["src", "static"], .dir),
    (["src", "static", "fonts"], .dir),
    (["src", "static", "fonts", "old.woff2"], .dir) ]

/-- A provisioned source tree whose `src/static/images` holds a
subdirectory `thumbs` next to the regular file `x.png`. -/
def fsC9i : FS :=
  [ (["src"], .dir), (["src", "static"], .dir),
    (["src", "static", "images"], .dir),
    (["src", "static", "images", "thumbs"], .dir),
    (["src", "static", "images", "x.png"], .file "PNG"),
    (["build"], .dir), (["build", "static"], .dir),
    (["build", "static", "css"], .dir), (["build", "static", "js"], .dir),
    (["build", "static", "images"], .dir), (["build", "static", "fonts"], .dir) ]

/-- A complete small site source tree on which `build_site`
succeeds. -/
def fsDemo : FS :=
  [ (["src"], .dir), (["src", "static"], .dir),
    (["src", "static", "js"], .dir),
    (["src", "static", "js", "app.js"], .file "let x = 1;"),
    (["src", "static", "fonts"], .dir),
    (["src", "static", "fonts", "r.woff2"], .file "FONT"),
    (["src", "static", "images"], .dir),
    (["src", "static", "images", "logo.png"], .file "PNG"),
    (["src", "templates"], .dir),
    (["src", "templates", "index.html"], .file "<title>\x7b\x7b title \x7d\x7d</title>") ]

/-- The filesystem produced by `build_site fsDemo`. -/
def fsDemoOut : FS :=
  fsDemo ++
    [ (["build"], .dir), (["build", "static"], .dir),
      (["build", "static", "css"], .dir), (["build", "static", "js"], .dir),
      (["build", "static", "images"], .dir), (["build", "static", "fonts"], .dir),
      (["build", "static", "js", "app.js"], .file "let x = 1;"),
      (["build", "static", "fonts", "r.woff2"], .file "FONT"),
      (["build", "static", "images", "logo.png"], .file "PNG"),
      (["build", "index.html"],
        .file "<title>Tap Tempo Perfectionist - Rhythm Training</title>") ]

/-- A source tree in which `src/static/js` and `src/static/fonts`
exist as regular files: globbing them yields nothing, so the full
build still succeeds. -/
def fsWeird : FS :=
  [ (["src"], .dir), (["src", "static"], .dir),
    (["src", "static", "js"], .file "not a directory"),
    (["src", "static", "fonts"], .file "also a file"),
    (["src", "templates"], .dir),
    (["src", "templates", "index.html"], .file "x") ]

/-- The filesystem produced by `build_site fsWeird`. -/
def fsWeirdOut : FS :=
  fsWeird ++
    [ (["build"], .dir), (["build", "static"], .dir),
      (["build", "static", "css"], .dir), (["build", "static", "js"], .dir),
      (["build", "static", "images"], .dir), (["build", "static", "fonts"], .dir),
      (["build", "index.html"], .file "x") ]

/-- The directory tree left behind by `ensure_build_dirs` on an empty
filesystem. -/
def fsProvisioned : FS :=
  [ (["build"], .dir), (["build", "static"], .dir),
    (["build", "static", "css"], .dir), (["build", "static", "js"], .dir),
    (["build", "static", "images"], .dir), (["build", "static", "fonts"], .dir) ]

/-- The filesystem produced by `copy_static_assets fsC9i`. -/
def fsC9iOut : FS :=
  fsC9i ++ [(images_dest ++ ["x.png"], .file "PNG")]

/-- A source tree whose `src/static/js` exists but holds zero `*.js`
matches, and whose `src/static/images` exists but is empty. -/
def fsEmptyCats : FS :=
  [ (["src"], .dir), (["src", "static"], .dir),
    (["src", "static", "js"], .dir),
    (["src", "static", "js", "style.css"], .file "body \x7b\x7d"),
    (["src", "static", "images"], .dir) ]

/-! ## Basic lemmas about the filesystem model -/

@[simp]
theorem lookup_nil (q : Path) : lookup [] q = none := rfl

@[simp]
theorem lookup_cons (p : Path) (e : Entry) (fs : FS) (q : Path) :
    lookup ((p, e) :: fs) q = if p = q then some e else lookup fs q := rfl

theorem lookup_append_some {fs : FS} (l : FS) {q : Path} {e : Entry}
    (h : lookup fs q = some e) : lookup (fs ++ l) q = some e := by
  induction fs with
  | nil => simp at h
  | cons pe fs ih =>
    obtain ⟨p, e'⟩ := pe
    rw [List.cons_append, lookup_cons]
    rw [lookup_cons] at h
    by_cases hpq : p = q
    · rw [if_pos hpq] at h ⊢
      exact h
    · rw [if_neg hpq] at h ⊢
      exact ih h

theorem lookup_append_none {fs : FS} (l : FS) {q : Path}
    (h : lookup fs q = none) : lookup (fs ++ l) q = lookup l q := by
  induction fs with
  | nil => simp
  | cons pe fs ih =>
    obtain ⟨p, e'⟩ := pe
    rw [lookup_cons] at h
    split at h
    · exact absurd h (by simp)
    · rw [List.cons_append, lookup_cons, if_neg (by assumption)]
      exact ih h

@[simp]
theorem setFile_nil (p : Path) (c : String) : setFile [] p c = [(p, .file c)] := rfl

@[simp]
theorem setFile_cons (q : Path) (e : Entry) (fs : FS) (p : Path) (c : String) :
    setFile ((q, e) :: fs) p c =
      if q = p then (q, .file c) :: fs else (q, e) :: setFile fs p c := rfl

theorem lookup_setFile_self (fs : FS) (p : Path) (c : String) :
    lookup (setFile fs p c) p = some (.file c) := by
  induction fs with
  | nil => simp
  | cons pe fs ih =>
    obtain ⟨q, e⟩ := pe
    by_cases hqp : q = p <;> simp [hqp, ih]

theorem lookup_setFile_ne (fs : FS) {p q : Path} (c : String) (h : q ≠ p) :
    lookup (setFile fs p c) q = lookup fs q := by
  induction fs with
  | nil => simp [Ne.symm h]
  | cons pe fs ih =>
    obtain ⟨r, e⟩ := pe
    rw [setFile_cons]
    by_cases hrp : r = p
    · have hrq : r ≠ q := fun hh => h (hh ▸ hrp)
      rw [if_pos hrp, lookup_cons, lookup_cons, if_neg hrq, if_neg hrq]
    · rw [if_neg hrp, lookup_cons, lookup_cons]
      by_cases hrq : r = q
      · rw [if_pos hrq, if_pos hrq]
      · rw [if_neg hrq, if_neg hrq]
        exact ih

theorem setFile_of_lookup {fs : FS} {p : Path} {c : String}
    (h : lookup fs p = some (.file c)) : setFile fs p c = fs := by
  induction fs with
  | nil => simp at h
  | cons pe fs ih =>
    obtain ⟨q, e⟩ := pe
    rw [lookup_cons] at h
    by_cases hqp : q = p
    · rw [if_pos hqp] at h
      obtain rfl : e = .file c := by injection h
      simp [hqp]
    · rw [if_neg hqp] at h
      simp [hqp, ih h]

/-! ## Lemmas about `isDir`, `isFile`, `pathExists` -/

theorem isDir_congr {fs g : FS} {p : Path} (h : lookup fs p = lookup g p) :
    isDir fs p = isDir g p := by
  simp [isDir, h]

theorem isFile_congr {fs g : FS} {p : Path} (h : lookup fs p = lookup g p) :
    isFile fs p = isFile g p := by
  simp [isFile, h]

theorem pathExists_congr {fs g : FS} {p : Path} (h : lookup fs p = lookup g p) :
    pathExists fs p = pathExists g p := by
  simp [pathExists, h]

theorem isDir_of_lookup_dir {fs : FS} {p : Path} (h : lookup fs p = some .dir) :
    isDir fs p = true := by
  simp [isDir, h]

theorem isDir_false_of_lookup_file {fs : FS} {p : Path} {c : String}
    (h : lookup fs p = some (.file c)) (hp : p ≠ []) : isDir fs p = false := by
  simp [isDir, h, hp]

theorem lookup_dir_of_isDir {fs : FS} {p : Path} (h : isDir fs p = true) (hp : p ≠ []) :
    lookup fs p = some .dir := by
  simp only [isDir] at h
  cases hl : lookup fs p with
  | none =>
    rw [hl] at h
    simp [List.isEmpty_iff, hp] at h
  | some e =>
    cases e with
    | dir => rfl
    | file c =>
      rw [hl] at h
      simp [List.isEmpty_iff, hp] at h

/-! ## Lemmas about `nonBuild` -/

theorem underBuild_append {d : Path} (l : List String) (hd : d ≠ []) :
    underBuild (d ++ l) = underBuild d := by
  cases d with
  | nil => exact absurd rfl hd
  | cons x xs => simp [underBuild]

@[simp]
theorem nonBuild_nil : nonBuild [] = [] := rfl

@[simp]
theorem nonBuild_cons (p : Path) (e : Entry) (fs : FS) :
    nonBuild ((p, e) :: fs) =
      if underBuild p then nonBuild fs else (p, e) :: nonBuild fs := rfl

theorem lookup_nonBuild (fs : FS) {q : Path} (h : underBuild q = false) :
    lookup (nonBuild fs) q = lookup fs q := by
  induction fs with
  | nil => simp
  | cons pe fs ih =>
    obtain ⟨p, e⟩ := pe
    rw [nonBuild_cons]
    by_cases hb : underBuild p
    · have hpq : p ≠ q := fun hpq => by rw [hpq, h] at hb; cases hb
      rw [if_pos hb, lookup_cons, if_neg hpq]
      exact ih
    · rw [if_neg hb, lookup_cons, lookup_cons]
      by_cases hpq : p = q
      · rw [if_pos hpq, if_pos hpq]
      · rw [if_neg hpq, if_neg hpq]
        exact ih

theorem lookup_eq_of_nonBuild {fs g : FS} {q : Path}
    (h : nonBuild fs = nonBuild g) (hq : underBuild q = false) :
    lookup fs q = lookup g q := by
  rw [← lookup_nonBuild fs hq, ← lookup_nonBuild g hq, h]

theorem childName_eq {d q : Path} {n : String} (h : childName d q = some n) :
    q = d ++ [n] := by
  unfold childName at h
  split at h
  · next heq =>
    split at h
    · next hTake =>
      obtain rfl : _ = n := by injection h
      rw [← hTake, ← heq]
      exact (List.take_append_drop d.length q).symm
    · exact absurd h (by simp)
  · exact absurd h (by simp)

@[simp]
theorem childNames_nil (d : Path) : childNames [] d = [] := rfl

@[simp]
theorem childNames_cons (p : Path) (e : Entry) (fs : FS) (d : Path) :
    childNames ((p, e) :: fs) d =
      match childName d p with
      | some n => n :: childNames fs d
      | none => childNames fs d := by
  simp only [childNames, List.filterMap_cons]
  cases childName d p <;> rfl

theorem childNames_nonBuild (fs : FS) {d : Path} (hd : d ≠ [])
    (h : underBuild d = false) : childNames (nonBuild fs) d = childNames fs d := by
  induction fs with
  | nil => simp
  | cons pe fs ih =>
    obtain ⟨p, e⟩ := pe
    rw [nonBuild_cons]
    by_cases hb : underBuild p
    · have hcn : childName d p = none := by
        cases hcn : childName d p with
        | none => rfl
        | some n =>
          have hpd := childName_eq hcn
          rw [hpd, underBuild_append [n] hd, h] at hb
          cases hb
      rw [if_pos hb, childNames_cons, hcn]
      exact ih
    · rw [if_neg hb, childNames_cons, childNames_cons]
      cases childName d p <;> simp [ih]

theorem childNames_eq_of_nonBuild {fs g : FS} {d : Path}
    (h : nonBuild fs = nonBuild g) (hd : d ≠ []) (hq : underBuild d = false) :
    childNames fs d = childNames g d := by
  rw [← childNames_nonBuild fs hd hq, ← childNames_nonBuild g hd hq, h]

theorem nonBuild_setFile (fs : FS) {p : Path} (c : String) (h : underBuild p = true) :
    nonBuild (setFile fs p c) = nonBuild fs := by
  induction fs with
  | nil => simp [h]
  | cons pe fs ih =>
    obtain ⟨q, e⟩ := pe
    rw [setFile_cons]
    by_cases hqp : q = p
    · subst hqp
      rw [if_pos rfl, nonBuild_cons, nonBuild_cons, if_pos h, if_pos h]
    · rw [if_neg hqp, nonBuild_cons, nonBuild_cons]
      by_cases hb : underBuild q
      · rw [if_pos hb, if_pos hb]
        exact ih
      · rw [if_neg hb, if_neg hb, ih]

theorem nonBuild_append (fs l : FS) (h : ∀ pe ∈ l, underBuild pe.1 = true) :
    nonBuild (fs ++ l) = nonBuild fs := by
  induction fs with
  | nil =>
    rw [List.nil_append, nonBuild_nil]
    induction l with
    | nil => rfl
    | cons pe l ihl =>
      obtain ⟨p, e⟩ := pe
      rw [nonBuild_cons, if_pos (h (p, e) (List.mem_cons_self _ _))]
      exact ihl fun pe hpe => h pe (List.mem_cons_of_mem _ hpe)
  | cons pe fs ih =>
    obtain ⟨p, e⟩ := pe
    rw [List.cons_append, nonBuild_cons, nonBuild_cons]
    by_cases hb : underBuild p
    · rw [if_pos hb, if_pos hb]
      exact ih
    · rw [if_neg hb, if_neg hb, ih]

/-! ## Lemmas about `writeFile` and `copy2` -/

theorem writeFile_ok {fs : FS} {p : Path} {c : String} {fs' : FS}
    (h : writeFile fs p c = .ok fs') :
    isDir fs p = false ∧ isDir fs p.dropLast = true ∧ fs' = setFile fs p c := by
  unfold writeFile at h
  split at h
  · cases h
  · split at h
    · refine ⟨by simp [*], by assumption, ?_⟩
      injection h with h
      exact h.symm
    · cases h

theorem writeFile_self {fs : FS} {p : Path} {c : String}
    (hl : lookup fs p = some (.file c)) (hp : p ≠ [])
    (hparent : isDir fs p.dropLast = true) : writeFile fs p c = .ok fs := by
  unfold writeFile
  rw [isDir_false_of_lookup_file hl hp, if_neg (by simp), if_pos hparent,
    setFile_of_lookup hl]

theorem lookup_writeFile_ne {fs : FS} {p : Path} {c : String} {fs' : FS}
    (h : writeFile fs p c = .ok fs') {q : Path} (hq : q ≠ p) :
    lookup fs' q = lookup fs q := by
  rw [(writeFile_ok h).2.2]
  exact lookup_setFile_ne fs c hq

theorem writeFile_isDir_mono {fs : FS} {p : Path} {c : String} {fs' : FS}
    (h : writeFile fs p c = .ok fs') {q : Path} (hq : isDir fs q = true) :
    isDir fs' q = true := by
  by_cases hqp : q = p
  · rw [hqp] at hq
    rw [(writeFile_ok h).1] at hq
    cases hq
  · rw [isDir_congr (lookup_writeFile_ne h hqp)]
    exact hq

theorem nonBuild_writeFile {fs : FS} {p : Path} {c : String} {fs' : FS}
    (h : writeFile fs p c = .ok fs') (hb : underBuild p = true) :
    nonBuild fs' = nonBuild fs := by
  rw [(writeFile_ok h).2.2]
  exact nonBuild_setFile fs c hb

theorem copy2_ok {fs : FS} {s d : Path} {fs' : FS} (h : copy2 fs s d = .ok fs') :
    ∃ c, lookup fs s = some (.file c) ∧ isDir fs d = false ∧
      isDir fs d.dropLast = true ∧ fs' = setFile fs d c := by
  unfold copy2 at h
  split at h
  · next c heq =>
    obtain ⟨h1, h2, h3⟩ := writeFile_ok h
    exact ⟨c, heq, h1, h2, h3⟩
  · cases h
  · cases h

theorem lookup_copy2_ne {fs : FS} {s d : Path} {fs' : FS}
    (h : copy2 fs s d = .ok fs') {q : Path} (hq : q ≠ d) :
    lookup fs' q = lookup fs q := by
  obtain ⟨c, _, _, _, rfl⟩ := copy2_ok h
  exact lookup_setFile_ne fs c hq

theorem copy2_isDir_mono {fs : FS} {s d : Path} {fs' : FS}
    (h : copy2 fs s d = .ok fs') {q : Path} (hq : isDir fs q = true) :
    isDir fs' q = true := by
  obtain ⟨c, _, hd, _, rfl⟩ := copy2_ok h
  by_cases hqd : q = d
  · rw [hqd] at hq
    rw [hq] at hd
    cases hd
  · rw [isDir_congr (lookup_setFile_ne fs c hqd)]
    exact hq

theorem nonBuild_copy2 {fs : FS} {s d : Path} {fs' : FS}
    (h : copy2 fs s d = .ok fs') (hb : underBuild d = true) :
    nonBuild fs' = nonBuild fs := by
  obtain ⟨c, _, _, _, rfl⟩ := copy2_ok h
  exact nonBuild_setFile fs c hb

theorem copy2_self {fs : FS} {s d : Path} {c : String}
    (hs : lookup fs s = some (.file c)) (hd : lookup fs d = some (.file c))
    (hdne : d ≠ []) (hparent : isDir fs d.dropLast = true) :
    copy2 fs s d = .ok fs := by
  unfold copy2
  rw [hs]
  exact writeFile_self hd hdne hparent

/-! ## Lemmas about `mkdirOne` and `mkdirParents` -/

theorem mkdirOne_ok {fs : FS} {p : Path} {fs' : FS} (h : mkdirOne fs p = .ok fs') :
    (fs' = fs ∧ lookup fs p = some .dir) ∨
      (lookup fs p = none ∧ isDir fs p.dropLast = true ∧ fs' = fs ++ [(p, .dir)]) := by
  unfold mkdirOne at h
  split at h
  · next heq =>
    left
    injection h with h
    exact ⟨h.symm, heq⟩
  · cases h
  · next heq =>
    split at h
    · right
      refine ⟨heq, by assumption, ?_⟩
      injection h with h
      exact h.symm
    · cases h

theorem mkdirOne_dir {fs : FS} {p : Path} (h : isDir fs p = true) (hp : p ≠ []) :
    mkdirOne fs p = .ok fs := by
  unfold mkdirOne
  rw [lookup_dir_of_isDir h hp]

theorem mkdirOne_lookup_mono {fs : FS} {p : Path} {fs' : FS}
    (h : mkdirOne fs p = .ok fs') {q : Path} {e : Entry}
    (hq : lookup fs q = some e) : lookup fs' q = some e := by
  rcases mkdirOne_ok h with ⟨rfl, _⟩ | ⟨_, _, rfl⟩
  · exact hq
  · exact lookup_append_some _ hq

theorem mkdirOne_isDir_post {fs : FS} {p : Path} {fs' : FS}
    (h : mkdirOne fs p = .ok fs') : isDir fs' p = true := by
  rcases mkdirOne_ok h with ⟨rfl, hdir⟩ | ⟨hnone, _, rfl⟩
  · exact isDir_of_lookup_dir hdir
  · exact isDir_of_lookup_dir (by rw [lookup_append_none _ hnone]; simp)

theorem mkdirOne_isDir_mono {fs : FS} {p : Path} {fs' : FS}
    (h : mkdirOne fs p = .ok fs') {q : Path} (hq : isDir fs q = true) :
    isDir fs' q = true := by
  by_cases hqe : q = []
  · simp [isDir, hqe]
  · exact isDir_of_lookup_dir (mkdirOne_lookup_mono h (lookup_dir_of_isDir hq hqe))

theorem nonBuild_mkdirOne {fs : FS} {p : Path} {fs' : FS}
    (h : mkdirOne fs p = .ok fs') (hb : underBuild p = true) :
    nonBuild fs' = nonBuild fs := by
  rcases mkdirOne_ok h with ⟨rfl, _⟩ | ⟨_, _, rfl⟩
  · rfl
  · exact nonBuild_append fs _ (by simp [hb])

theorem mkdirParents_go_lookup_mono {l : List Path} {fs fs' : FS}
    (h : mkdirParents.go fs l = .ok fs') {q : Path} {e : Entry}
    (hq : lookup fs q = some e) : lookup fs' q = some e := by
  induction l generalizing fs with
  | nil =>
    obtain rfl : fs = fs' := by injection h
    exact hq
  | cons r l ih =>
    unfold mkdirParents.go at h
    split at h
    · next fs1 heq => exact ih h (mkdirOne_lookup_mono heq hq)
    · cases h

theorem mkdirParents_go_isDir_mono {l : List Path} {fs fs' : FS}
    (h : mkdirParents.go fs l = .ok fs') {q : Path} (hq : isDir fs q = true) :
    isDir fs' q = true := by
  by_cases hqe : q = []
  · simp [isDir, hqe]
  · exact isDir_of_lookup_dir
      (mkdirParents_go_lookup_mono h (lookup_dir_of_isDir hq hqe))

theorem mkdirParents_go_post {l : List Path} {fs fs' : FS}
    (h : mkdirParents.go fs l = .ok fs') : ∀ q ∈ l, isDir fs' q = true := by
  induction l generalizing fs with
  | nil => simp
  | cons r l ih =>
    unfold mkdirParents.go at h
    split at h
    · next fs1 heq =>
      intro q hq
      rcases List.mem_cons.mp hq with rfl | hmem
      · exact mkdirParents_go_isDir_mono h (mkdirOne_isDir_post heq)
      · exact ih h q hmem
    · cases h

theorem mkdirParents_go_nonBuild {l : List Path} {fs fs' : FS}
    (h : mkdirParents.go fs l = .ok fs') (hb : ∀ q ∈ l, underBuild q = true) :
    nonBuild fs' = nonBuild fs := by
  induction l generalizing fs with
  | nil =>
    obtain rfl : fs = fs' := by injection h
    rfl
  | cons r l ih =>
    unfold mkdirParents.go at h
    split at h
    · next fs1 heq =>
      rw [ih h fun q hq => hb q (List.mem_cons_of_mem _ hq),
        nonBuild_mkdirOne heq (hb r (List.mem_cons_self _ _))]
    · cases h

theorem mkdirParents_go_idem {l : List Path} {fs : FS}
    (h : ∀ q ∈ l, isDir fs q = true ∧ q ≠ []) : mkdirParents.go fs l = .ok fs := by
  induction l with
  | nil => rfl
  | cons r l ih =>
    unfold mkdirParents.go
    obtain ⟨h1, h2⟩ := h r (List.mem_cons_self _ _)
    rw [mkdirOne_dir h1 h2]
    exact ih fun q hq => h q (List.mem_cons_of_mem _ hq)

/-! ## Lemmas about `ensure_build_dirs` -/

theorem ensure_build_dirs_ok {fs fs' : FS} (h : ensure_build_dirs fs = .ok fs') :
    ∃ a b c d, mkdirOne fs build_dir = .ok a ∧
      mkdirParents a (build_static ++ ["css"]) = .ok b ∧
      mkdirParents b (build_static ++ ["js"]) = .ok c ∧
      mkdirParents c (build_static ++ ["images"]) = .ok d ∧
      mkdirParents d (build_static ++ ["fonts"]) = .ok fs' := by
  unfold ensure_build_dirs at h
  split at h
  · cases h
  · next a ha =>
    split at h
    · cases h
    · next b hb =>
      split at h
      · cases h
      · next c hc =>
        split at h
        · cases h
        · next d hd => exact ⟨a, b, c, d, ha, hb, hc, hd, h⟩

theorem ensure_build_dirs_post {fs fs' : FS} (h : ensure_build_dirs fs = .ok fs') :
    ∀ q ∈ provisionedDirs, isDir fs' q = true := by
  obtain ⟨a, b, c, d, ha, hb, hc, hd, he⟩ := ensure_build_dirs_ok h
  have hcss : isDir b (build_static ++ ["css"]) = true :=
    mkdirParents_go_post hb _ (by decide)
  have hjs : isDir c (build_static ++ ["js"]) = true :=
    mkdirParents_go_post hc _ (by decide)
  have himg : isDir d (build_static ++ ["images"]) = true :=
    mkdirParents_go_post hd _ (by decide)
  have hfonts : isDir fs' (build_static ++ ["fonts"]) = true :=
    mkdirParents_go_post he _ (by decide)
  have hbd : isDir fs' build_dir = true :=
    mkdirParents_go_post he _ (by decide)
  have hbs : isDir fs' build_static = true :=
    mkdirParents_go_post he _ (by decide)
  intro q hq
  have hcss' : isDir fs' (build_static ++ ["css"]) = true :=
    mkdirParents_go_isDir_mono he
      (mkdirParents_go_isDir_mono hd (mkdirParents_go_isDir_mono hc hcss))
  have hjs' : isDir fs' (build_static ++ ["js"]) = true :=
    mkdirParents_go_isDir_mono he (mkdirParents_go_isDir_mono hd hjs)
  have himg' : isDir fs' (build_static ++ ["images"]) = true :=
    mkdirParents_go_isDir_mono he himg
  simp only [provisionedDirs, List.mem_cons, List.not_mem_nil, or_false] at hq
  rcases hq with rfl | rfl | rfl | rfl | rfl | rfl
  · exact hbd
  · exact hbs
  · exact hcss'
  · exact hjs'
  · exact himg'
  · exact hfonts

theorem ensure_build_dirs_lookup_mono {fs fs' : FS}
    (h : ensure_build_dirs fs = .ok fs') {q : Path} {e : Entry}
    (hq : lookup fs q = some e) : lookup fs' q = some e := by
  obtain ⟨a, b, c, d, ha, hb, hc, hd, he⟩ := ensure_build_dirs_ok h
  exact mkdirParents_go_lookup_mono he
    (mkdirParents_go_lookup_mono hd
      (mkdirParents_go_lookup_mono hc
        (mkdirParents_go_lookup_mono hb (mkdirOne_lookup_mono ha hq))))

theorem nonBuild_ensure_build_dirs {fs fs' : FS}
    (h : ensure_build_dirs fs = .ok fs') : nonBuild fs' = nonBuild fs := by
  obtain ⟨a, b, c, d, ha, hb, hc, hd, he⟩ := ensure_build_dirs_ok h
  rw [mkdirParents_go_nonBuild he (by decide),
    mkdirParents_go_nonBuild hd (by decide),
    mkdirParents_go_nonBuild hc (by decide),
    mkdirParents_go_nonBuild hb (by decide),
    nonBuild_mkdirOne ha (by decide)]

theorem ensure_build_dirs_idem {fs : FS}
    (h : ∀ q ∈ provisionedDirs, isDir fs q = true) :
    ensure_build_dirs fs = .ok fs := by
  have hbd : mkdirOne fs build_dir = .ok fs :=
    mkdirOne_dir (h build_dir (by decide)) (by decide)
  have harg : ∀ sub : String, sub ∈ (["css", "js", "images", "fonts"] : List String) →
      mkdirParents fs (build_static ++ [sub]) = .ok fs := by
    intro sub hsub
    apply mkdirParents_go_idem
    intro q hq
    have hpre : prefixesOf (build_static ++ [sub]) =
        [build_dir, build_static, build_static ++ [sub]] := rfl
    rw [hpre] at hq
    simp only [List.mem_cons, List.not_mem_nil, or_false] at hq
    rcases hq with rfl | rfl | rfl
    · exact ⟨h build_dir (by decide), by decide⟩
    · exact ⟨h build_static (by decide), by decide⟩
    · refine ⟨?_, by simp [build_static]⟩
      fin_cases hsub
      · exact h _ (by decide)
      · exact h _ (by decide)
      · exact h _ (by decide)
      · exact h _ (by decide)
  simp only [ensure_build_dirs, hbd, harg "css" (by decide), harg "js" (by decide),
    harg "images" (by decide), harg "fonts" (by decide)]

/-! ## Lemmas about the copy loops -/

theorem dropLast_snoc (l : Path) (a : String) : (l ++ [a]).dropLast = l := by
  simp

theorem snoc_ne_snoc {s d : Path} (h : s ≠ d) (m n : String) :
    s ++ [m] ≠ d ++ [n] := by
  intro hh
  exact h (by rw [← dropLast_snoc s m, ← dropLast_snoc d n, hh])

theorem snoc_inj {d : Path} {m n : String} (h : d ++ [m] = d ++ [n]) : m = n := by
  have h2 := List.append_cancel_left h
  injection h2

theorem copyGlob_frame {s d : Path} {fs fs' : FS} {ns : List String}
    (h : copyGlob s d fs ns = .ok fs') {q : Path}
    (hq : ∀ n ∈ ns, q ≠ d ++ [n]) : lookup fs' q = lookup fs q := by
  induction ns generalizing fs with
  | nil =>
    obtain rfl : fs = fs' := by injection h
    rfl
  | cons m ms ih =>
    unfold copyGlob at h
    split at h
    · next fs1 heq =>
      rw [ih h fun n hn => hq n (List.mem_cons_of_mem _ hn),
        lookup_copy2_ne heq (hq m (List.mem_cons_self _ _))]
    · cases h

theorem copyGlob_isDir_mono {s d : Path} {fs fs' : FS} {ns : List String}
    (h : copyGlob s d fs ns = .ok fs') {q : Path} (hq : isDir fs q = true) :
    isDir fs' q = true := by
  induction ns generalizing fs with
  | nil =>
    obtain rfl : fs = fs' := by injection h
    exact hq
  | cons m ms ih =>
    unfold copyGlob at h
    split at h
    · next fs1 heq => exact ih h (copy2_isDir_mono heq hq)
    · cases h

theorem nonBuild_copyGlob {s d : Path} {fs fs' : FS} {ns : List String}
    (h : copyGlob s d fs ns = .ok fs') (hdne : d ≠ [])
    (hb : underBuild d = true) : nonBuild fs' = nonBuild fs := by
  induction ns generalizing fs with
  | nil =>
    obtain rfl : fs = fs' := by injection h
    rfl
  | cons m ms ih =>
    unfold copyGlob at h
    split at h
    · next fs1 heq =>
      rw [ih h, nonBuild_copy2 heq (by rw [underBuild_append [m] hdne]; exact hb)]
    · cases h

theorem copyGlob_post {s d : Path} (hsd : s ≠ d) {fs fs' : FS} {ns : List String}
    (h : copyGlob s d fs ns = .ok fs') :
    ∀ n ∈ ns, ∃ c, lookup fs (s ++ [n]) = some (.file c) ∧
      lookup fs' (d ++ [n]) = some (.file c) := by
  induction ns generalizing fs with
  | nil => simp
  | cons m ms ih =>
    unfold copyGlob at h
    split at h
    · next fs1 heq =>
      obtain ⟨c, hsrc, _, _, rfl⟩ := copy2_ok heq
      intro n hn
      rcases List.mem_cons.mp hn with rfl | hmem
      · refine ⟨c, hsrc, ?_⟩
        by_cases hms : n ∈ ms
        · obtain ⟨c', hs', hd'⟩ := ih h n hms
          rw [lookup_setFile_ne fs c (snoc_ne_snoc hsd n n), hsrc] at hs'
          have hcc : c = c' := by
            have h1 : Entry.file c = Entry.file c' := by injection hs'
            injection h1
          subst hcc
          exact hd'
        · rw [copyGlob_frame h fun n' hn' hnn =>
            hms (by rw [snoc_inj hnn]; exact hn')]
          exact lookup_setFile_self fs (d ++ [n]) c
      · obtain ⟨c', hs', hd'⟩ := ih h n hmem
        rw [lookup_setFile_ne fs c (snoc_ne_snoc hsd n m)] at hs'
        exact ⟨c', hs', hd'⟩
    · cases h

theorem copyGlob_idem {s d : Path} {fs : FS} {ns : List String}
    (_hdne : d ≠ []) (hdd : isDir fs d = true)
    (hc : ∀ n ∈ ns, ∃ c, lookup fs (s ++ [n]) = some (.file c) ∧
      lookup fs (d ++ [n]) = some (.file c)) :
    copyGlob s d fs ns = .ok fs := by
  induction ns with
  | nil => rfl
  | cons m ms ih =>
    obtain ⟨c, hs, hd⟩ := hc m (List.mem_cons_self _ _)
    unfold copyGlob
    rw [copy2_self hs hd (by simp) (by rw [dropLast_snoc]; exact hdd)]
    exact ih fun n hn => hc n (List.mem_cons_of_mem _ hn)

theorem copyImages_frame {fs fs' : FS} {ns : List String}
    (h : copyImages fs ns = .ok fs') {q : Path}
    (hq : ∀ n ∈ ns, q ≠ images_dest ++ [n]) : lookup fs' q = lookup fs q := by
  induction ns generalizing fs with
  | nil =>
    obtain rfl : fs = fs' := by injection h
    rfl
  | cons m ms ih =>
    unfold copyImages at h
    split at h
    · split at h
      · next fs1 heq =>
        rw [ih h fun n hn => hq n (List.mem_cons_of_mem _ hn),
          lookup_copy2_ne heq (hq m (List.mem_cons_self _ _))]
      · cases h
    · exact ih h fun n hn => hq n (List.mem_cons_of_mem _ hn)

theorem copyImages_isDir_mono {fs fs' : FS} {ns : List String}
    (h : copyImages fs ns = .ok fs') {q : Path} (hq : isDir fs q = true) :
    isDir fs' q = true := by
  induction ns generalizing fs with
  | nil =>
    obtain rfl : fs = fs' := by injection h
    exact hq
  | cons m ms ih =>
    unfold copyImages at h
    split at h
    · split at h
      · next fs1 heq => exact ih h (copy2_isDir_mono heq hq)
      · cases h
    · exact ih h hq

theorem nonBuild_copyImages {fs fs' : FS} {ns : List String}
    (h : copyImages fs ns = .ok fs') : nonBuild fs' = nonBuild fs := by
  induction ns generalizing fs with
  | nil =>
    obtain rfl : fs = fs' := by injection h
    rfl
  | cons m ms ih =>
    unfold copyImages at h
    split at h
    · split at h
      · next fs1 heq =>
        rw [ih h, nonBuild_copy2 heq
          (by rw [underBuild_append [m] (show images_dest ≠ [] by decide)]; decide)]
      · cases h
    · exact ih h

theorem copyImages_post {fs fs' : FS} {ns : List String}
    (h : copyImages fs ns = .ok fs') :
    ∀ n ∈ ns, isFile fs (images_src ++ [n]) = true →
      ∃ c, lookup fs (images_src ++ [n]) = some (.file c) ∧
        lookup fs' (images_dest ++ [n]) = some (.file c) := by
  have hsd : images_src ≠ images_dest := by decide
  induction ns generalizing fs with
  | nil => simp
  | cons m ms ih =>
    unfold copyImages at h
    split at h
    · next hfm =>
      split at h
      · next fs1 heq =>
        obtain ⟨c, hsrc, _, _, rfl⟩ := copy2_ok heq
        intro n hn hfile
        rcases List.mem_cons.mp hn with rfl | hmem
        · refine ⟨c, hsrc, ?_⟩
          by_cases hms : n ∈ ms
          · have hf1 : isFile (setFile fs (images_dest ++ [n]) c) (images_src ++ [n]) = true := by
              rw [isFile_congr (lookup_setFile_ne fs c (snoc_ne_snoc hsd n n))]
              exact hfile
            obtain ⟨c', hs', hd'⟩ := ih h n hms hf1
            rw [lookup_setFile_ne fs c (snoc_ne_snoc hsd n n), hsrc] at hs'
            have hcc : c = c' := by
              have h1 : Entry.file c = Entry.file c' := by injection hs'
              injection h1
            subst hcc
            exact hd'
          · rw [copyImages_frame h fun n' hn' hnn =>
              hms (by rw [snoc_inj hnn]; exact hn')]
            exact lookup_setFile_self fs (images_dest ++ [n]) c
        · have hf1 : isFile (setFile fs (images_dest ++ [m]) c) (images_src ++ [n]) = true := by
            rw [isFile_congr (lookup_setFile_ne fs c (snoc_ne_snoc hsd n m))]
            exact hfile
          obtain ⟨c', hs', hd'⟩ := ih h n hmem hf1
          rw [lookup_setFile_ne fs c (snoc_ne_snoc hsd n m)] at hs'
          exact ⟨c', hs', hd'⟩
      · cases h
    · next hfm =>
      intro n hn hfile
      rcases List.mem_cons.mp hn with rfl | hmem
      · rw [hfile] at hfm
        exact absurd rfl hfm
      · exact ih h n hmem hfile

theorem copyImages_idem {fs : FS} {ns : List String}
    (hdd : isDir fs images_dest = true)
    (hc : ∀ n ∈ ns, isFile fs (images_src ++ [n]) = true →
      ∃ c, lookup fs (images_src ++ [n]) = some (.file c) ∧
        lookup fs (images_dest ++ [n]) = some (.file c)) :
    copyImages fs ns = .ok fs := by
  induction ns with
  | nil => rfl
  | cons m ms ih =>
    unfold copyImages
    by_cases hfm : isFile fs (images_src ++ [m]) = true
    · obtain ⟨c, hs, hd⟩ := hc m (List.mem_cons_self _ _) hfm
      rw [if_pos hfm, copy2_self hs hd (by simp) (by rw [dropLast_snoc]; exact hdd)]
      exact ih fun n hn => hc n (List.mem_cons_of_mem _ hn)
    · rw [if_neg hfm]
      exact ih fun n hn => hc n (List.mem_cons_of_mem _ hn)

/-! ## Lemmas about the three phases of `copy_static_assets` -/

theorem jsPhase_ok {fs fs' : FS} (h : jsPhase fs = .ok fs') :
    (pathExists fs js_src = false ∧ fs' = fs) ∨
      (pathExists fs js_src = true ∧
        copyGlob js_src js_dest fs (globExt fs js_src ".js") = .ok fs') := by
  unfold jsPhase at h
  split at h
  · next h1 => exact .inr ⟨h1, h⟩
  · next h1 =>
    left
    refine ⟨by simpa using h1, ?_⟩
    injection h with h
    exact h.symm

theorem fontsPhase_ok {fs fs' : FS} (h : fontsPhase fs = .ok fs') :
    (pathExists fs fonts_src = false ∧ fs' = fs) ∨
      (pathExists fs fonts_src = true ∧
        copyGlob fonts_src fonts_dest fs (globExt fs fonts_src ".woff2") = .ok fs') := by
  unfold fontsPhase at h
  split at h
  · next h1 => exact .inr ⟨h1, h⟩
  · next h1 =>
    left
    refine ⟨by simpa using h1, ?_⟩
    injection h with h
    exact h.symm

theorem imagesPhase_ok {fs fs' : FS} (h : imagesPhase fs = .ok fs') :
    (pathExists fs images_src = false ∧ fs' = fs) ∨
      (pathExists fs images_src = true ∧ isDir fs images_src = true ∧
        childNames fs images_src = [] ∧ fs' = fs) ∨
      (pathExists fs images_src = true ∧ isDir fs images_src = true ∧
        copyImages fs (childNames fs images_src) = .ok fs') := by
  unfold imagesPhase at h
  split at h
  · next h1 =>
    split at h
    · next h2 =>
      split at h
      · next h3 =>
        right; left
        refine ⟨h1, h2, by simpa using h3, ?_⟩
        injection h with h
        exact h.symm
      · exact .inr (.inr ⟨h1, h2, h⟩)
    · cases h
  · next h1 =>
    left
    refine ⟨by simpa using h1, ?_⟩
    injection h with h
    exact h.symm

theorem jsPhase_frame {fs fs' : FS} (h : jsPhase fs = .ok fs') {q : Path}
    (hq : ∀ n, q ≠ js_dest ++ [n]) : lookup fs' q = lookup fs q := by
  rcases jsPhase_ok h with ⟨_, rfl⟩ | ⟨_, hcp⟩
  · rfl
  · exact copyGlob_frame hcp fun n _ => hq n

theorem fontsPhase_frame {fs fs' : FS} (h : fontsPhase fs = .ok fs') {q : Path}
    (hq : ∀ n, q ≠ fonts_dest ++ [n]) : lookup fs' q = lookup fs q := by
  rcases fontsPhase_ok h with ⟨_, rfl⟩ | ⟨_, hcp⟩
  · rfl
  · exact copyGlob_frame hcp fun n _ => hq n

theorem imagesPhase_frame {fs fs' : FS} (h : imagesPhase fs = .ok fs') {q : Path}
    (hq : ∀ n, q ≠ images_dest ++ [n]) : lookup fs' q = lookup fs q := by
  rcases imagesPhase_ok h with ⟨_, rfl⟩ | ⟨_, _, _, rfl⟩ | ⟨_, _, hcp⟩
  · rfl
  · rfl
  · exact copyImages_frame hcp fun n _ => hq n

theorem nonBuild_jsPhase {fs fs' : FS} (h : jsPhase fs = .ok fs') :
    nonBuild fs' = nonBuild fs := by
  rcases jsPhase_ok h with ⟨_, rfl⟩ | ⟨_, hcp⟩
  · rfl
  · exact nonBuild_copyGlob hcp (by decide) (by decide)

theorem nonBuild_fontsPhase {fs fs' : FS} (h : fontsPhase fs = .ok fs') :
    nonBuild fs' = nonBuild fs := by
  rcases fontsPhase_ok h with ⟨_, rfl⟩ | ⟨_, hcp⟩
  · rfl
  · exact nonBuild_copyGlob hcp (by decide) (by decide)

theorem nonBuild_imagesPhase {fs fs' : FS} (h : imagesPhase fs = .ok fs') :
    nonBuild fs' = nonBuild fs := by
  rcases imagesPhase_ok h with ⟨_, rfl⟩ | ⟨_, _, _, rfl⟩ | ⟨_, _, hcp⟩
  · rfl
  · rfl
  · exact nonBuild_copyImages hcp

theorem jsPhase_isDir_mono {fs fs' : FS} (h : jsPhase fs = .ok fs') {q : Path}
    (hq : isDir fs q = true) : isDir fs' q = true := by
  rcases jsPhase_ok h with ⟨_, rfl⟩ | ⟨_, hcp⟩
  · exact hq
  · exact copyGlob_isDir_mono hcp hq

theorem fontsPhase_isDir_mono {fs fs' : FS} (h : fontsPhase fs = .ok fs') {q : Path}
    (hq : isDir fs q = true) : isDir fs' q = true := by
  rcases fontsPhase_ok h with ⟨_, rfl⟩ | ⟨_, hcp⟩
  · exact hq
  · exact copyGlob_isDir_mono hcp hq

theorem imagesPhase_isDir_mono {fs fs' : FS} (h : imagesPhase fs = .ok fs') {q : Path}
    (hq : isDir fs q = true) : isDir fs' q = true := by
  rcases imagesPhase_ok h with ⟨_, rfl⟩ | ⟨_, _, _, rfl⟩ | ⟨_, _, hcp⟩
  · exact hq
  · exact hq
  · exact copyImages_isDir_mono hcp hq

/-! ## Composite lemmas about `copy_static_assets` -/

theorem copy_static_assets_ok {fs fs' : FS} (h : copy_static_assets fs = .ok fs') :
    ∃ a b, jsPhase fs = .ok a ∧ fontsPhase a = .ok b ∧ imagesPhase b = .ok fs' := by
  unfold copy_static_assets at h
  split at h
  · cases h
  · next a ha =>
    split at h
    · cases h
    · next b hb => exact ⟨a, b, ha, hb, h⟩

theorem copy_static_assets_frame {fs fs' : FS} (h : copy_static_assets fs = .ok fs')
    {q : Path}
    (hq : ∀ n, q ≠ js_dest ++ [n] ∧ q ≠ fonts_dest ++ [n] ∧ q ≠ images_dest ++ [n]) :
    lookup fs' q = lookup fs q := by
  obtain ⟨a, b, ha, hb, hc⟩ := copy_static_assets_ok h
  rw [imagesPhase_frame hc fun n => (hq n).2.2,
    fontsPhase_frame hb fun n => (hq n).2.1,
    jsPhase_frame ha fun n => (hq n).1]

theorem nonBuild_copy_static_assets {fs fs' : FS}
    (h : copy_static_assets fs = .ok fs') : nonBuild fs' = nonBuild fs := by
  obtain ⟨a, b, ha, hb, hc⟩ := copy_static_assets_ok h
  rw [nonBuild_imagesPhase hc, nonBuild_fontsPhase hb, nonBuild_jsPhase ha]

theorem copy_static_assets_isDir_mono {fs fs' : FS}
    (h : copy_static_assets fs = .ok fs') {q : Path} (hq : isDir fs q = true) :
    isDir fs' q = true := by
  obtain ⟨a, b, ha, hb, hc⟩ := copy_static_assets_ok h
  exact imagesPhase_isDir_mono hc
    (fontsPhase_isDir_mono hb (jsPhase_isDir_mono ha hq))

/-! ## Lemmas about `render_template` -/

theorem render_template_ok {fs : FS} {env : Env} {name : String} {out : Path}
    {ctx : List (String × String)} {fs' : FS}
    (h : render_template fs env name out ctx = .ok fs') :
    ∃ tmpl html, get_template fs env name = .ok tmpl ∧
      renderString env ctx tmpl = .ok html ∧ writeFile fs out html = .ok fs' := by
  unfold render_template at h
  split at h
  · cases h
  · next tmpl htm =>
    split at h
    · cases h
    · next html hh => exact ⟨tmpl, html, htm, hh, h⟩

theorem get_template_ok {fs : FS} {env : Env} {name tmpl : String}
    (h : get_template fs env name = .ok tmpl) :
    lookup fs (env.templateDir ++ [name]) = some (.file tmpl) := by
  unfold get_template at h
  split at h
  · next c heq =>
    injection h with h
    rw [heq, h]
  · cases h

/-! ## Idempotence of the phases -/

theorem pathExists_of_isDir {fs : FS} {p : Path} (h : isDir fs p = true)
    (hp : p ≠ []) : pathExists fs p = true := by
  simp [pathExists, lookup_dir_of_isDir h hp]

theorem jsPhase_idem {fs : FS}
    (h1 : pathExists fs js_src = true → isDir fs js_dest = true ∧
      ∀ n ∈ globExt fs js_src ".js", ∃ c, lookup fs (js_src ++ [n]) = some (.file c) ∧
        lookup fs (js_dest ++ [n]) = some (.file c)) :
    jsPhase fs = .ok fs := by
  unfold jsPhase
  by_cases hp : pathExists fs js_src = true
  · obtain ⟨hdd, hc⟩ := h1 hp
    rw [if_pos hp]
    exact copyGlob_idem (by decide) hdd hc
  · rw [if_neg hp]

theorem fontsPhase_idem {fs : FS}
    (h1 : pathExists fs fonts_src = true → isDir fs fonts_dest = true ∧
      ∀ n ∈ globExt fs fonts_src ".woff2",
        ∃ c, lookup fs (fonts_src ++ [n]) = some (.file c) ∧
          lookup fs (fonts_dest ++ [n]) = some (.file c)) :
    fontsPhase fs = .ok fs := by
  unfold fontsPhase
  by_cases hp : pathExists fs fonts_src = true
  · obtain ⟨hdd, hc⟩ := h1 hp
    rw [if_pos hp]
    exact copyGlob_idem (by decide) hdd hc
  · rw [if_neg hp]

theorem imagesPhase_idem {fs : FS}
    (h0 : pathExists fs images_src = true → isDir fs images_src = true)
    (h1 : isDir fs images_src = true → isDir fs images_dest = true ∧
      ∀ n ∈ childNames fs images_src, isFile fs (images_src ++ [n]) = true →
        ∃ c, lookup fs (images_src ++ [n]) = some (.file c) ∧
          lookup fs (images_dest ++ [n]) = some (.file c)) :
    imagesPhase fs = .ok fs := by
  unfold imagesPhase
  by_cases hp : pathExists fs images_src = true
  · have hd := h0 hp
    obtain ⟨hdd, hc⟩ := h1 hd
    rw [if_pos hp, if_pos hd]
    by_cases he : (childNames fs images_src).isEmpty = true
    · rw [if_pos he]
    · rw [if_neg he]
      exact copyImages_idem hdd hc
  · rw [if_neg hp]

/-! ## Path disequalities between the write targets -/

theorem ne_js_fonts (n m : String) : js_dest ++ [n] ≠ fonts_dest ++ [m] :=
  snoc_ne_snoc (by decide) n m

theorem ne_js_images (n m : String) : js_dest ++ [n] ≠ images_dest ++ [m] :=
  snoc_ne_snoc (by decide) n m

theorem ne_fonts_images (n m : String) : fonts_dest ++ [n] ≠ images_dest ++ [m] :=
  snoc_ne_snoc (by decide) n m

theorem ne_js_out (n : String) : js_dest ++ [n] ≠ build_dir ++ ["index.html"] := by
  intro h
  injection h with h1 h2
  injection h2 with h3 h4
  exact absurd h3 (by decide)

theorem ne_fonts_out (n : String) :
    fonts_dest ++ [n] ≠ build_dir ++ ["index.html"] := by
  intro h
  injection h with h1 h2
  injection h2 with h3 h4
  exact absurd h3 (by decide)

theorem ne_images_out (n : String) :
    images_dest ++ [n] ≠ build_dir ++ ["index.html"] := by
  intro h
  injection h with h1 h2
  injection h2 with h3 h4
  exact absurd h3 (by decide)

theorem lookup_snoc_of_nonBuild {g g' : FS} (hnb : nonBuild g' = nonBuild g)
    {d : Path} (n : String) (hd : d ≠ []) (hu : underBuild d = false) :
    lookup g' (d ++ [n]) = lookup g (d ++ [n]) :=
  lookup_eq_of_nonBuild hnb (by rw [underBuild_append [n] hd]; exact hu)

theorem ne_css_js (n m : String) : build_static ++ ["css", n] ≠ js_dest ++ [m] := by
  intro hh
  injection hh with a1 a2
  injection a2 with b1 b2
  injection b2 with c1 c2
  exact absurd c1 (by decide)

theorem ne_css_fonts (n m : String) :
    build_static ++ ["css", n] ≠ fonts_dest ++ [m] := by
  intro hh
  injection hh with a1 a2
  injection a2 with b1 b2
  injection b2 with c1 c2
  exact absurd c1 (by decide)

theorem ne_css_images (n m : String) :
    build_static ++ ["css", n] ≠ images_dest ++ [m] := by
  intro hh
  injection hh with a1 a2
  injection a2 with b1 b2
  injection b2 with c1 c2
  exact absurd c1 (by decide)

/-! ## Decomposition and idempotence of `build_site` -/

theorem setup_jinja_env_eq (fs : FS) : setup_jinja_env fs = .ok defaultEnv := rfl

theorem build_site_ok {fs fs' : FS} (h : build_site fs = .ok fs') :
    ∃ fs1 fs2 tmpl html,
      ensure_build_dirs fs = .ok fs1 ∧
      copy_static_assets fs1 = .ok fs2 ∧
      get_template fs2 defaultEnv "index.html" = .ok tmpl ∧
      renderString defaultEnv siteContext tmpl = .ok html ∧
      writeFile fs2 (build_dir ++ ["index.html"]) html = .ok fs' := by
  unfold build_site at h
  rw [setup_jinja_env_eq] at h
  split at h
  · next heq => cases heq
  · next env heq =>
    obtain rfl : defaultEnv = env := by injection heq
    split at h
    · cases h
    · next fs1 h1 =>
      split at h
      · cases h
      · next fs2 h2 =>
        obtain ⟨tmpl, html, h3, h4, h5⟩ := render_template_ok h
        exact ⟨fs1, fs2, tmpl, html, h1, h2, h3, h4, h5⟩

theorem build_site_idem {fs fs' : FS} (h : build_site fs = .ok fs') :
    build_site fs' = .ok fs' := by
  obtain ⟨fs1, fs2, tmpl, html, hens, hcopy, hget, hrender, hwrite⟩ := build_site_ok h
  obtain ⟨a, b, hjs, hfonts, himgs⟩ := copy_static_assets_ok hcopy
  obtain ⟨houtND, houtPar, hfs'⟩ := writeFile_ok hwrite
  have nb2 : nonBuild fs' = nonBuild fs2 := by
    rw [hfs']
    exact nonBuild_setFile fs2 html (by decide)
  have nbB : nonBuild fs' = nonBuild b := by rw [nb2, nonBuild_imagesPhase himgs]
  have nbA : nonBuild fs' = nonBuild a := by rw [nbB, nonBuild_fontsPhase hfonts]
  have nb1 : nonBuild fs' = nonBuild fs1 := by rw [nbA, nonBuild_jsPhase hjs]
  have dirs1 := ensure_build_dirs_post hens
  have dirs' : ∀ q ∈ provisionedDirs, isDir fs' q = true := fun q hq =>
    writeFile_isDir_mono hwrite (copy_static_assets_isDir_mono hcopy (dirs1 q hq))
  have hens2 : ensure_build_dirs fs' = .ok fs' := ensure_build_dirs_idem dirs'
  -- the JS phase is a no-op on the built state
  have hjs_src_ne : (js_src : Path) ≠ [] := by decide
  have hjs_src_ub : underBuild js_src = false := by decide
  have hnames_js : globExt fs' js_src ".js" = globExt fs1 js_src ".js" := by
    unfold globExt
    rw [childNames_eq_of_nonBuild nb1 hjs_src_ne hjs_src_ub]
  have hjs2 : jsPhase fs' = .ok fs' := by
    apply jsPhase_idem
    intro hp
    refine ⟨dirs' js_dest (by decide), ?_⟩
    have hp1 : pathExists fs1 js_src = true := by
      rw [← pathExists_congr (lookup_eq_of_nonBuild nb1 hjs_src_ub)]
      exact hp
    rcases jsPhase_ok hjs with ⟨hpe, rfl⟩ | ⟨_, hcg⟩
    · rw [hp1] at hpe
      cases hpe
    · intro n hn
      rw [hnames_js] at hn
      obtain ⟨c, hsc, hdc⟩ := copyGlob_post (by decide) hcg n hn
      refine ⟨c, ?_, ?_⟩
      · rw [lookup_snoc_of_nonBuild nb1 n hjs_src_ne hjs_src_ub]
        exact hsc
      · have t1 : lookup b (js_dest ++ [n]) = lookup a (js_dest ++ [n]) :=
          fontsPhase_frame hfonts fun m => ne_js_fonts n m
        have t2 : lookup fs2 (js_dest ++ [n]) = lookup b (js_dest ++ [n]) :=
          imagesPhase_frame himgs fun m => ne_js_images n m
        have t3 : lookup fs' (js_dest ++ [n]) = lookup fs2 (js_dest ++ [n]) := by
          rw [hfs']
          exact lookup_setFile_ne fs2 html (ne_js_out n)
        rw [t3, t2, t1]
        exact hdc
  -- the fonts phase is a no-op on the built state
  have hfonts_src_ne : (fonts_src : Path) ≠ [] := by decide
  have hfonts_src_ub : underBuild fonts_src = false := by decide
  have hnames_fonts : globExt fs' fonts_src ".woff2" = globExt a fonts_src ".woff2" := by
    unfold globExt
    rw [childNames_eq_of_nonBuild nbA hfonts_src_ne hfonts_src_ub]
  have hfonts2 : fontsPhase fs' = .ok fs' := by
    apply fontsPhase_idem
    intro hp
    refine ⟨dirs' fonts_dest (by decide), ?_⟩
    have hpa : pathExists a fonts_src = true := by
      rw [← pathExists_congr (lookup_eq_of_nonBuild nbA hfonts_src_ub)]
      exact hp
    rcases fontsPhase_ok hfonts with ⟨hpe, rfl⟩ | ⟨_, hcg⟩
    · rw [hpa] at hpe
      cases hpe
    · intro n hn
      rw [hnames_fonts] at hn
      obtain ⟨c, hsc, hdc⟩ := copyGlob_post (by decide) hcg n hn
      refine ⟨c, ?_, ?_⟩
      · rw [lookup_snoc_of_nonBuild nbA n hfonts_src_ne hfonts_src_ub]
        exact hsc
      · have t2 : lookup fs2 (fonts_dest ++ [n]) = lookup b (fonts_dest ++ [n]) :=
          imagesPhase_frame himgs fun m => ne_fonts_images n m
        have t3 : lookup fs' (fonts_dest ++ [n]) = lookup fs2 (fonts_dest ++ [n]) := by
          rw [hfs']
          exact lookup_setFile_ne fs2 html (ne_fonts_out n)
        rw [t3, t2]
        exact hdc
  -- the images phase is a no-op on the built state
  have himg_src_ne : (images_src : Path) ≠ [] := by decide
  have himg_src_ub : underBuild images_src = false := by decide
  have hnames_img : childNames fs' images_src = childNames b images_src :=
    childNames_eq_of_nonBuild nbB himg_src_ne himg_src_ub
  have himgs2 : imagesPhase fs' = .ok fs' := by
    apply imagesPhase_idem
    · intro hp
      have hpb : pathExists b images_src = true := by
        rw [← pathExists_congr (lookup_eq_of_nonBuild nbB himg_src_ub)]
        exact hp
      rcases imagesPhase_ok himgs with ⟨hpe, _⟩ | ⟨_, hd1, _, _⟩ | ⟨_, hd1, _⟩
      · rw [hpb] at hpe
        cases hpe
      · rw [isDir_congr (lookup_eq_of_nonBuild nbB himg_src_ub)]
        exact hd1
      · rw [isDir_congr (lookup_eq_of_nonBuild nbB himg_src_ub)]
        exact hd1
    · intro hd
      refine ⟨dirs' images_dest (by decide), ?_⟩
      intro n hn hfile
      rw [hnames_img] at hn
      rcases imagesPhase_ok himgs with ⟨hpe, rfl⟩ | ⟨_, _, hemp, rfl⟩ | ⟨_, _, hcp⟩
      · exfalso
        have hd1 : isDir fs2 images_src = true := by
          rw [← isDir_congr (lookup_eq_of_nonBuild nbB himg_src_ub)]
          exact hd
        rw [pathExists_of_isDir hd1 himg_src_ne] at hpe
        cases hpe
      · rw [hemp] at hn
        cases hn
      · have hfb : isFile b (images_src ++ [n]) = true := by
          rw [← isFile_congr (lookup_snoc_of_nonBuild nbB n himg_src_ne himg_src_ub)]
          exact hfile
        obtain ⟨c, hsc, hdc⟩ := copyImages_post hcp n hn hfb
        refine ⟨c, ?_, ?_⟩
        · rw [lookup_snoc_of_nonBuild nbB n himg_src_ne himg_src_ub]
          exact hsc
        · have t3 : lookup fs' (images_dest ++ [n]) = lookup fs2 (images_dest ++ [n]) := by
            rw [hfs']
            exact lookup_setFile_ne fs2 html (ne_images_out n)
          rw [t3]
          exact hdc
  have hcopy2 : copy_static_assets fs' = .ok fs' := by
    simp only [copy_static_assets, hjs2, hfonts2, himgs2]
  -- rendering is a no-op overwrite on the built state
  have hget2 : get_template fs' defaultEnv "index.html" = .ok tmpl := by
    unfold get_template
    rw [lookup_eq_of_nonBuild nb2 (by decide), get_template_ok hget]
  have hwrite2 : writeFile fs' (build_dir ++ ["index.html"]) html = .ok fs' := by
    apply writeFile_self
    · rw [hfs']
      exact lookup_setFile_self fs2 _ html
    · decide
    · rw [dropLast_snoc]
      exact dirs' build_dir (by decide)
  simp only [build_site, setup_jinja_env_eq, hens2, hcopy2, render_template, hget2,
    hrender]
  exact hwrite2

/-! ## Aborted runs: the state carried by an error is the state left
by a successful run over a prefix of the copy list -/

theorem writeFile_error {fs : FS} {p : Path} {c : String} {e : Err} {g : FS}
    (h : writeFile fs p c = .error (e, g)) : g = fs := by
  unfold writeFile at h
  split at h
  · injection h with h2
    injection h2 with he hg
    exact hg.symm
  · split at h
    · cases h
    · injection h with h2
      injection h2 with he hg
      exact hg.symm

theorem copy2_error {fs : FS} {s d : Path} {e : Err} {g : FS}
    (h : copy2 fs s d = .error (e, g)) : g = fs := by
  unfold copy2 at h
  split at h
  · exact writeFile_error h
  · injection h with h2
    injection h2 with he hg
    exact hg.symm
  · injection h with h2
    injection h2 with he hg
    exact hg.symm

theorem copyGlob_error {s d : Path} {fs g : FS} {ns : List String} {e : Err}
    (h : copyGlob s d fs ns = .error (e, g)) :
    ∃ ms, (∀ n ∈ ms, n ∈ ns) ∧ copyGlob s d fs ms = .ok g := by
  induction ns generalizing fs with
  | nil => cases h
  | cons m ms ih =>
    unfold copyGlob at h
    split at h
    · next fs1 heq =>
      obtain ⟨l, hl, hok⟩ := ih h
      refine ⟨m :: l, ?_, ?_⟩
      · intro n hn
        rcases List.mem_cons.mp hn with rfl | hmem
        · exact List.mem_cons_self _ _
        · exact List.mem_cons_of_mem _ (hl n hmem)
      · unfold copyGlob
        rw [heq]
        exact hok
    · next e2 heq =>
      obtain rfl : e2 = (e, g) := by injection h
      obtain rfl : g = fs := copy2_error heq
      exact ⟨[], by simp, rfl⟩

theorem copyImages_error {fs g : FS} {ns : List String} {e : Err}
    (h : copyImages fs ns = .error (e, g)) :
    ∃ ms, (∀ n ∈ ms, n ∈ ns) ∧ copyImages fs ms = .ok g := by
  induction ns generalizing fs with
  | nil => cases h
  | cons m ms ih =>
    unfold copyImages at h
    split at h
    · next hguard =>
      split at h
      · next fs1 heq =>
        obtain ⟨l, hl, hok⟩ := ih h
        refine ⟨m :: l, ?_, ?_⟩
        · intro n hn
          rcases List.mem_cons.mp hn with rfl | hmem
          · exact List.mem_cons_self _ _
          · exact List.mem_cons_of_mem _ (hl n hmem)
        · unfold copyImages
          rw [if_pos hguard, heq]
          exact hok
      · next e2 heq =>
        obtain rfl : e2 = (e, g) := by injection h
        obtain rfl : g = fs := copy2_error heq
        exact ⟨[], by simp, rfl⟩
    · obtain ⟨l, hl, hok⟩ := ih h
      exact ⟨l, fun n hn => List.mem_cons_of_mem _ (hl n hn), hok⟩

theorem jsPhase_any {fs fs' : FS}
    (h : jsPhase fs = .ok fs' ∨ ∃ e, jsPhase fs = .error (e, fs')) :
    ∃ ns, copyGlob js_src js_dest fs ns = .ok fs' := by
  rcases h with h | ⟨e, h⟩
  · rcases jsPhase_ok h with ⟨_, rfl⟩ | ⟨_, hcg⟩
    · exact ⟨[], rfl⟩
    · exact ⟨_, hcg⟩
  · unfold jsPhase at h
    split at h
    · obtain ⟨ms, _, hok⟩ := copyGlob_error h
      exact ⟨ms, hok⟩
    · cases h

theorem fontsPhase_any {fs fs' : FS}
    (h : fontsPhase fs = .ok fs' ∨ ∃ e, fontsPhase fs = .error (e, fs')) :
    ∃ ns, copyGlob fonts_src fonts_dest fs ns = .ok fs' := by
  rcases h with h | ⟨e, h⟩
  · rcases fontsPhase_ok h with ⟨_, rfl⟩ | ⟨_, hcg⟩
    · exact ⟨[], rfl⟩
    · exact ⟨_, hcg⟩
  · unfold fontsPhase at h
    split at h
    · obtain ⟨ms, _, hok⟩ := copyGlob_error h
      exact ⟨ms, hok⟩
    · cases h

theorem imagesPhase_any {fs fs' : FS}
    (h : imagesPhase fs = .ok fs' ∨ ∃ e, imagesPhase fs = .error (e, fs')) :
    ∃ ns, copyImages fs ns = .ok fs' := by
  rcases h with h | ⟨e, h⟩
  · rcases imagesPhase_ok h with ⟨_, rfl⟩ | ⟨_, _, _, rfl⟩ | ⟨_, _, hcp⟩
    · exact ⟨[], rfl⟩
    · exact ⟨[], rfl⟩
    · exact ⟨_, hcp⟩
  · unfold imagesPhase at h
    split at h
    · split at h
      · split at h
        · cases h
        · obtain ⟨ms, _, hok⟩ := copyImages_error h
          exact ⟨ms, hok⟩
      · have h2 : (Err.notADirectory, fs) = ((e, fs') : Err × FS) := by injection h
        have hg : fs = fs' := congrArg Prod.snd h2
        exact ⟨[], by rw [← hg]; rfl⟩
    · cases h

theorem copy_static_assets_any {fs fs' : FS}
    (h : copy_static_assets fs = .ok fs' ∨
      ∃ e, copy_static_assets fs = .error (e, fs')) :
    ∃ a b nsj nsf nsi,
      copyGlob js_src js_dest fs nsj = .ok a ∧
      copyGlob fonts_src fonts_dest a nsf = .ok b ∧
      copyImages b nsi = .ok fs' := by
  rcases h with h | ⟨e, h⟩
  · obtain ⟨a, b, hjs, hfonts, himgs⟩ := copy_static_assets_ok h
    obtain ⟨nsj, hj⟩ := jsPhase_any (.inl hjs)
    obtain ⟨nsf, hf⟩ := fontsPhase_any (.inl hfonts)
    obtain ⟨nsi, hi⟩ := imagesPhase_any (.inl himgs)
    exact ⟨a, b, nsj, nsf, nsi, hj, hf, hi⟩
  · unfold copy_static_assets at h
    split at h
    · next e2 heq =>
      obtain rfl : e2 = (e, fs') := by injection h
      obtain ⟨nsj, hj⟩ := jsPhase_any (.inr ⟨e, heq⟩)
      exact ⟨fs', fs', nsj, [], [], hj, rfl, rfl⟩
    · next a heq1 =>
      split at h
      · next e2 heq2 =>
        obtain rfl : e2 = (e, fs') := by injection h
        obtain ⟨nsj, hj⟩ := jsPhase_any (.inl heq1)
        obtain ⟨nsf, hf⟩ := fontsPhase_any (.inr ⟨e, heq2⟩)
        exact ⟨a, fs', nsj, nsf, [], hj, hf, rfl⟩
      · next b heq2 =>
        obtain ⟨nsj, hj⟩ := jsPhase_any (.inl heq1)
        obtain ⟨nsf, hf⟩ := fontsPhase_any (.inl heq2)
        obtain ⟨nsi, hi⟩ := imagesPhase_any (.inr ⟨e, h⟩)
        exact ⟨a, b, nsj, nsf, nsi, hj, hf, hi⟩

/-! ## Which writes can change a copy destination -/

theorem copyGlob_origin {s d : Path} (hsd : s ≠ d) {fs fs' : FS} {ns : List String}
    (h : copyGlob s d fs ns = .ok fs') (n : String)
    (hch : lookup fs' (d ++ [n]) ≠ lookup fs (d ++ [n])) :
    ∃ c, lookup fs (s ++ [n]) = some (.file c) ∧
      lookup fs' (d ++ [n]) = some (.file c) := by
  by_cases hn : n ∈ ns
  · exact copyGlob_post hsd h n hn
  · exact absurd
      (copyGlob_frame h fun m hm hnm => hn (by rw [snoc_inj hnm]; exact hm)) hch

theorem copyImages_origin {fs fs' : FS} {ns : List String}
    (h : copyImages fs ns = .ok fs') (n : String)
    (hch : lookup fs' (images_dest ++ [n]) ≠ lookup fs (images_dest ++ [n])) :
    ∃ c, lookup fs (images_src ++ [n]) = some (.file c) ∧
      lookup fs' (images_dest ++ [n]) = some (.file c) := by
  have hsd : images_src ≠ images_dest := by decide
  induction ns generalizing fs with
  | nil =>
    obtain rfl : fs = fs' := by injection h
    exact absurd rfl hch
  | cons m ms ih =>
    unfold copyImages at h
    split at h
    · split at h
      · next fs1 heq =>
        obtain ⟨c, hsrc, _, _, rfl⟩ := copy2_ok heq
        by_cases hch1 : lookup fs' (images_dest ++ [n]) =
            lookup (setFile fs (images_dest ++ [m]) c) (images_dest ++ [n])
        · by_cases hnm : n = m
          · subst hnm
            refine ⟨c, hsrc, ?_⟩
            rw [hch1]
            exact lookup_setFile_self fs (images_dest ++ [n]) c
          · exfalso
            apply hch
            rw [hch1]
            exact lookup_setFile_ne fs c fun hh => hnm (snoc_inj hh)
        · obtain ⟨c', hs', hd'⟩ := ih h hch1
          rw [lookup_setFile_ne fs c (snoc_ne_snoc hsd n m)] at hs'
          exact ⟨c', hs', hd'⟩
      · cases h
    · exact ih h hch

/-! ## HTML escaping produces no raw markup characters -/

theorem escChar_no_angle (c : Char) : '<' ∉ escChar c ∧ '>' ∉ escChar c := by
  unfold escChar
  split_ifs with h1 h2 h3 h4 h5
  · exact ⟨by decide, by decide⟩
  · exact ⟨by decide, by decide⟩
  · exact ⟨by decide, by decide⟩
  · exact ⟨by decide, by decide⟩
  · exact ⟨by decide, by decide⟩
  · rw [beq_iff_eq] at h2 h3
    constructor
    · simp only [List.mem_singleton]
      exact fun hh => h2 hh.symm
    · simp only [List.mem_singleton]
      exact fun hh => h3 hh.symm

theorem htmlEscape_no_angle (v : String) :
    '<' ∉ (htmlEscape v).data ∧ '>' ∉ (htmlEscape v).data := by
  have hdata : (htmlEscape v).data = (v.data.map escChar).flatten := rfl
  rw [hdata]
  constructor
  · intro hmem
    obtain ⟨l, hl, hcl⟩ := List.mem_flatten.mp hmem
    obtain ⟨c, _, rfl⟩ := List.mem_map.mp hl
    exact (escChar_no_angle c).1 hcl
  · intro hmem
    obtain ⟨l, hl, hcl⟩ := List.mem_flatten.mp hmem
    obtain ⟨c, _, rfl⟩ := List.mem_map.mp hl
    exact (escChar_no_angle c).2 hcl

/-! ## The claims -/

/-- C1: for a source static tree in which `src/static/js` contains
exactly the regular files `a.js` and `b.js` and no other `*.js`
entries, running the Asset Copier after directory provisioning
produces exactly `build/static/js/a.js` and `build/static/js/b.js`,
each byte-identical to its source file, and no other files under
`build/static/js`. -/
theorem claim_C1 (ca cb : String) :
    ∃ fs1 fs2 : FS,
      ensure_build_dirs (fsC1 ca cb) = .ok fs1 ∧
      copy_static_assets fs1 = .ok fs2 ∧
      childNames fs2 js_dest = ["a.js", "b.js"] ∧
      lookup fs2 (js_dest ++ ["a.js"]) = some (.file ca) ∧
      lookup fs2 (js_dest ++ ["b.js"]) = some (.file cb) ∧
      lookup fs2 (js_src ++ ["a.js"]) = some (.file ca) ∧
      lookup fs2 (js_src ++ ["b.js"]) = some (.file cb) :=
  ⟨_, _, rfl, rfl, rfl, rfl, rfl, rfl, rfl⟩

/-- C2: `ensure_build_dirs` is idempotent: whenever a run succeeds,
the resulting state has the build root and the four static
subdirectories; a second run on that state succeeds, changes nothing,
and every pre-existing entry is left untouched. -/
theorem claim_C2 (fs fs' : FS) (h : ensure_build_dirs fs = .ok fs') :
    ensure_build_dirs fs' = .ok fs' ∧
    (∀ q ∈ provisionedDirs, isDir fs' q = true) ∧
    (∀ q e, lookup fs q = some e → lookup fs' q = some e) :=
  ⟨ensure_build_dirs_idem (ensure_build_dirs_post h), ensure_build_dirs_post h,
    fun _ _ hq => ensure_build_dirs_lookup_mono h hq⟩

theorem claim_C2_witness :
    ensure_build_dirs fsProvisioned = .ok fsProvisioned ∧
    (∀ q ∈ provisionedDirs, isDir fsProvisioned q = true) ∧
    (∀ q e, lookup ([] : FS) q = some e → lookup fsProvisioned q = some e) :=
  claim_C2 [] fsProvisioned rfl

/-- C3: for every template name that does not resolve to a regular
file under the template directory, `render_template` fails with
`TemplateNotFoundError`, and the filesystem it reports at the failure
is the unmodified input: the destination output file is neither
created nor truncated, because the failure happens before the output
file is opened. -/
theorem claim_C3 (fs : FS) (env : Env) (name : String) (out : Path)
    (ctx : List (String × String))
    (h : isFile fs (env.templateDir ++ [name]) = false) :
    render_template fs env name out ctx = .error (.templateNotFound, fs) := by
  unfold render_template get_template
  cases hl : lookup fs (env.templateDir ++ [name]) with
  | none => rfl
  | some e =>
    cases e with
    | dir => rfl
    | file c =>
      unfold isFile at h
      rw [hl] at h
      cases h

theorem claim_C3_witness :
    render_template [] defaultEnv "index.html" (build_dir ++ ["index.html"]) [] =
      .error (.templateNotFound, []) :=
  claim_C3 [] defaultEnv "index.html" (build_dir ++ ["index.html"]) [] rfl

/-- C4: an absent source directory, or a source directory with zero
qualifying entries, makes the corresponding category of
`copy_static_assets` a silent no-op rather than an error; in
particular a tree without `src/static/images` copies cleanly and
leaves `build/static/images` empty. -/
theorem claim_C4 :
    (∀ fs : FS, pathExists fs images_src = false → imagesPhase fs = .ok fs) ∧
    (∀ fs : FS, isDir fs images_src = true → childNames fs images_src = [] →
      imagesPhase fs = .ok fs) ∧
    (∀ fs : FS, pathExists fs js_src = false → jsPhase fs = .ok fs) ∧
    (∀ fs : FS, isDir fs js_src = true → globExt fs js_src ".js" = [] →
      jsPhase fs = .ok fs) ∧
    (∀ fs : FS, pathExists fs fonts_src = false → fontsPhase fs = .ok fs) ∧
    (∀ fs : FS, isDir fs fonts_src = true → globExt fs fonts_src ".woff2" = [] →
      fontsPhase fs = .ok fs) ∧
    (∃ fs1 fs2 : FS, ensure_build_dirs fsC4 = .ok fs1 ∧
      copy_static_assets fs1 = .ok fs2 ∧ childNames fs2 images_dest = [] ∧
      pathExists fsC4 images_src = false) := by
  refine ⟨?_, ?_, ?_, ?_, ?_, ?_, ⟨_, _, rfl, rfl, rfl, rfl⟩⟩
  · intro fs h
    simp [imagesPhase, h]
  · intro fs hd hn
    have hp : pathExists fs images_src = true := pathExists_of_isDir hd (by decide)
    simp [imagesPhase, hp, hd, hn]
  · intro fs h
    simp [jsPhase, h]
  · intro fs hd hn
    have hp : pathExists fs js_src = true := pathExists_of_isDir hd (by decide)
    simp only [jsPhase, hp, hd, hn, if_true]
    rfl
  · intro fs h
    simp [fontsPhase, h]
  · intro fs hd hn
    have hp : pathExists fs fonts_src = true := pathExists_of_isDir hd (by decide)
    simp only [fontsPhase, hp, hd, hn, if_true]
    rfl

theorem claim_C4_witness :
    imagesPhase ([] : FS) = .ok [] ∧
    imagesPhase fsEmptyCats = .ok fsEmptyCats ∧
    jsPhase fsEmptyCats = .ok fsEmptyCats :=
  ⟨claim_C4.1 [] rfl, claim_C4.2.1 fsEmptyCats rfl rfl,
    claim_C4.2.2.2.1 fsEmptyCats rfl rfl⟩

/-- C5 fails on the code: rendering a template whose only use of a
missing context key is a plain interpolation does *not* fail at render
time.  On `fsC5`, whose template `t.html` is `A\x7b\x7b title \x7d\x7dB`,
rendering with the empty context succeeds and writes `AB`: the missing
key is substituted as the empty string. -/
theorem claim_C5_counterexample :
    render_template fsC5 defaultEnv "t.html" (build_dir ++ ["out.html"]) [] =
      .ok (fsC5 ++ [(build_dir ++ ["out.html"], .file "AB")]) := rfl

/-- C5 (amended): a plain `\x7b\x7b key \x7d\x7d` interpolation of a
key the context lacks renders as the empty string (the default
Jinja2 `Undefined`), so `render_template` succeeds; a render-time
failure occurs only when the template evaluates an operation on the
missing value, such as calling it. -/
theorem claim_C5 :
    (∀ (env : Env) (ctx : List (String × String)) (n : String),
      lookupCtx ctx n = none → renderNodes env ctx [.varRef n] = .ok "") ∧
    (∀ (env : Env) (ctx : List (String × String)) (n : String),
      renderNodes env ctx [.callExpr n] = .error .templateRenderError) ∧
    (∀ ctx : List (String × String), lookupCtx ctx "title" = none →
      render_template fsC5 defaultEnv "t.html" (build_dir ++ ["out.html"]) ctx =
        .ok (fsC5 ++ [(build_dir ++ ["out.html"], .file "AB")])) := by
  refine ⟨?_, ?_, ?_⟩
  · intro env ctx n h
    simp only [renderNodes, h]
    rfl
  · intro env ctx n
    rfl
  · intro ctx h
    have h4 : renderNodes defaultEnv ctx [.text "A", .varRef "title", .text "B"] =
        .ok "AB" := by
      simp only [renderNodes, h]
      rfl
    have hrs : renderString defaultEnv ctx "A\x7b\x7b title \x7d\x7dB" = .ok "AB" := h4
    show ((match renderString defaultEnv ctx "A\x7b\x7b title \x7d\x7dB" with
      | Except.error e => Except.error (e, fsC5)
      | Except.ok html =>
        writeFile fsC5 (build_dir ++ ["out.html"]) html) : Except (Err × FS) FS) =
        Except.ok (fsC5 ++ [(build_dir ++ ["out.html"], Entry.file "AB")])
    rw [hrs]
    rfl

theorem claim_C5_witness :
    renderNodes defaultEnv [] [.varRef "title"] = .ok "" ∧
    renderNodes defaultEnv [] [.callExpr "title"] = .error .templateRenderError ∧
    render_template fsC5 defaultEnv "t.html" (build_dir ++ ["out.html"]) [] =
      .ok (fsC5 ++ [(build_dir ++ ["out.html"], .file "AB")]) :=
  ⟨claim_C5.1 defaultEnv [] "title" rfl, claim_C5.2.1 defaultEnv [] "title",
    claim_C5.2.2 [] rfl⟩

/-- C6 fails on the code: `setup_jinja_env` performs no filesystem
access at all, so on a filesystem without the template directory it
still succeeds (it cannot fail), instead of reporting a
`ConfigurationError`-class condition at initialization. -/
theorem claim_C6_counterexample :
    setup_jinja_env ([] : FS) = .ok defaultEnv ∧
    isDir ([] : FS) defaultEnv.templateDir = false ∧
    get_template ([] : FS) defaultEnv "index.html" = .error .templateNotFound :=
  ⟨rfl, rfl, rfl⟩

/-- C6 (amended): `setup_jinja_env` always succeeds, whatever the
filesystem looks like; a missing template directory surfaces only at
the first template lookup, as a `TemplateNotFoundError`. -/
theorem claim_C6 (fs : FS) :
    setup_jinja_env fs = .ok defaultEnv ∧
    (∀ name : String, lookup fs (defaultEnv.templateDir ++ [name]) = none →
      get_template fs defaultEnv name = .error .templateNotFound) := by
  refine ⟨rfl, ?_⟩
  intro name h
  unfold get_template
  rw [h]

theorem claim_C6_witness :
    setup_jinja_env ([] : FS) = .ok defaultEnv ∧
    get_template ([] : FS) defaultEnv "index.html" = .error .templateNotFound :=
  ⟨(claim_C6 []).1, (claim_C6 []).2 "index.html" rfl⟩

/-- C7: the environment built by `setup_jinja_env` has auto-escaping,
block-trimming and leading-whitespace stripping enabled; rendering a
template that interpolates `title` and `description` with the context
`[("title", "T"), ("description", "D")]` writes output containing the
literal `T` and `D`, and escaped substitution never contributes a raw
`<` or `>` character. -/
theorem claim_C7 (fs : FS) (env : Env) (h : setup_jinja_env fs = .ok env) :
    env.autoescape = true ∧ env.trim_blocks = true ∧ env.lstrip_blocks = true ∧
    (∀ v : String, '<' ∉ (htmlEscape v).data ∧ '>' ∉ (htmlEscape v).data) ∧
    (∃ fs' : FS,
      render_template fsC7 env "index.html" (build_dir ++ ["index.html"])
        [("title", "T"), ("description", "D")] = .ok fs' ∧
      lookup fs' (build_dir ++ ["index.html"]) =
        some (.file "<h1>T</h1><p>D</p>")) := by
  obtain rfl : defaultEnv = env := by injection h
  exact ⟨rfl, rfl, rfl, htmlEscape_no_angle, ⟨_, rfl, rfl⟩⟩

theorem claim_C7_witness :
    defaultEnv.autoescape = true ∧ defaultEnv.trim_blocks = true ∧
    defaultEnv.lstrip_blocks = true ∧
    (∀ v : String, '<' ∉ (htmlEscape v).data ∧ '>' ∉ (htmlEscape v).data) ∧
    (∃ fs' : FS,
      render_template fsC7 defaultEnv "index.html" (build_dir ++ ["index.html"])
        [("title", "T"), ("description", "D")] = .ok fs' ∧
      lookup fs' (build_dir ++ ["index.html"]) =
        some (.file "<h1>T</h1><p>D</p>")) :=
  claim_C7 [] defaultEnv rfl

/-- C8: for every source tree on which one full build succeeds,
running `build_site` a second time succeeds and leaves the filesystem
in exactly the state the first run produced (directory creation and
copies are idempotent; the rendered page is overwritten with identical
content).  Timestamps are not part of the model. -/
theorem claim_C8 (fs fs' : FS) (h : build_site fs = .ok fs') :
    build_site fs' = .ok fs' :=
  build_site_idem h

theorem claim_C8_witness :
    build_site fsDemoOut = .ok fsDemoOut ∧ build_site fsWeirdOut = .ok fsWeirdOut :=
  ⟨claim_C8 fsDemo fsDemoOut rfl, claim_C8 fsWeird fsWeirdOut rfl⟩

/-- C9: the extension-filtered categories apply no regular-file
filter: a *directory* named `lib.js` under `src/static/js` (or
`old.woff2` under `src/static/fonts`) is matched by the glob and
`shutil.copy2` then fails with a propagated filesystem error, whereas
the images category skips non-regular entries via its `is_file`
check. -/
theorem claim_C9 :
    copy_static_assets fsC9 = .error (.isADirectory, fsC9) ∧
    copy_static_assets fsC9f = .error (.isADirectory, fsC9f) ∧
    copy_static_assets fsC9i = .ok fsC9iOut ∧
    childNames fsC9iOut images_dest = ["x.png"] ∧
    lookup fsC9iOut (images_dest ++ ["thumbs"]) = none :=
  ⟨rfl, rfl, rfl, rfl, rfl⟩

/-- C10: on every run of `copy_static_assets` — successful, or aborted
partway with an error (the carried state) — writes happen only at
paths of the form `build/static/js/n`, `build/static/fonts/n` or
`build/static/images/n`; everything outside the `build` tree (in
particular all of `src/static`) and everything under
`build/static/css` is untouched, and any destination file that did
change holds the contents of the same-named regular file directly
inside the corresponding source directory. -/
theorem claim_C10 (fs fs' : FS)
    (h : copy_static_assets fs = .ok fs' ∨
      ∃ e, copy_static_assets fs = .error (e, fs')) :
    (∀ q : Path,
      (∀ n : String,
        q ≠ js_dest ++ [n] ∧ q ≠ fonts_dest ++ [n] ∧ q ≠ images_dest ++ [n]) →
      lookup fs' q = lookup fs q) ∧
    (∀ q : Path, underBuild q = false → lookup fs' q = lookup fs q) ∧
    (∀ n : String, lookup fs' (build_static ++ ["css", n]) =
      lookup fs (build_static ++ ["css", n])) ∧
    (∀ n : String, lookup fs' (js_dest ++ [n]) ≠ lookup fs (js_dest ++ [n]) →
      ∃ c, lookup fs (js_src ++ [n]) = some (.file c) ∧
        lookup fs' (js_dest ++ [n]) = some (.file c)) ∧
    (∀ n : String, lookup fs' (fonts_dest ++ [n]) ≠ lookup fs (fonts_dest ++ [n]) →
      ∃ c, lookup fs (fonts_src ++ [n]) = some (.file c) ∧
        lookup fs' (fonts_dest ++ [n]) = some (.file c)) ∧
    (∀ n : String, lookup fs' (images_dest ++ [n]) ≠ lookup fs (images_dest ++ [n]) →
      ∃ c, lookup fs (images_src ++ [n]) = some (.file c) ∧
        lookup fs' (images_dest ++ [n]) = some (.file c)) := by
  obtain ⟨a, b, nsj, nsf, nsi, hj, hf, hi⟩ := copy_static_assets_any h
  have hframe : ∀ q : Path,
      (∀ n : String,
        q ≠ js_dest ++ [n] ∧ q ≠ fonts_dest ++ [n] ∧ q ≠ images_dest ++ [n]) →
      lookup fs' q = lookup fs q := by
    intro q hq
    rw [copyImages_frame hi fun n _ => (hq n).2.2,
      copyGlob_frame hf fun n _ => (hq n).2.1,
      copyGlob_frame hj fun n _ => (hq n).1]
  refine ⟨hframe, ?_, ?_, ?_, ?_, ?_⟩
  · intro q hq
    have nb : nonBuild fs' = nonBuild fs := by
      rw [nonBuild_copyImages hi, nonBuild_copyGlob hf (by decide) (by decide),
        nonBuild_copyGlob hj (by decide) (by decide)]
    exact lookup_eq_of_nonBuild nb hq
  · intro n
    exact hframe _ fun m => ⟨ne_css_js n m, ne_css_fonts n m, ne_css_images n m⟩
  · intro n hch
    have t2 : lookup fs' (js_dest ++ [n]) = lookup b (js_dest ++ [n]) :=
      copyImages_frame hi fun m _ => ne_js_images n m
    have t1 : lookup b (js_dest ++ [n]) = lookup a (js_dest ++ [n]) :=
      copyGlob_frame hf fun m _ => ne_js_fonts n m
    have hch1 : lookup a (js_dest ++ [n]) ≠ lookup fs (js_dest ++ [n]) := by
      intro hh
      exact hch (by rw [t2, t1, hh])
    obtain ⟨c, hs, hd⟩ := copyGlob_origin (by decide) hj n hch1
    exact ⟨c, hs, by rw [t2, t1]; exact hd⟩
  · intro n hch
    have t2 : lookup fs' (fonts_dest ++ [n]) = lookup b (fonts_dest ++ [n]) :=
      copyImages_frame hi fun m _ => ne_fonts_images n m
    have t0 : lookup a (fonts_dest ++ [n]) = lookup fs (fonts_dest ++ [n]) :=
      copyGlob_frame hj fun m _ => Ne.symm (ne_js_fonts m n)
    have hch1 : lookup b (fonts_dest ++ [n]) ≠ lookup a (fonts_dest ++ [n]) := by
      intro hh
      exact hch (by rw [t2, hh, t0])
    obtain ⟨c, hs, hd⟩ := copyGlob_origin (by decide) hf n hch1
    have hsrc : lookup fs (fonts_src ++ [n]) = some (.file c) := by
      rw [← lookup_snoc_of_nonBuild (nonBuild_copyGlob hj (by decide) (by decide)) n
        (by decide) (by decide)]
      exact hs
    exact ⟨c, hsrc, by rw [t2]; exact hd⟩
  · intro n hch
    have t0 : lookup a (images_dest ++ [n]) = lookup fs (images_dest ++ [n]) :=
      copyGlob_frame hj fun m _ => Ne.symm (ne_js_images m n)
    have t1 : lookup b (images_dest ++ [n]) = lookup a (images_dest ++ [n]) :=
      copyGlob_frame hf fun m _ => Ne.symm (ne_fonts_images m n)
    have hch1 : lookup fs' (images_dest ++ [n]) ≠ lookup b (images_dest ++ [n]) := by
      intro hh
      exact hch (by rw [hh, t1, t0])
    obtain ⟨c, hs, hd⟩ := copyImages_origin hi n hch1
    have hsrc : lookup fs (images_src ++ [n]) = some (.file c) := by
      rw [← lookup_snoc_of_nonBuild (nonBuild_copyGlob hj (by decide) (by decide)) n
        (by decide) (by decide),
        ← lookup_snoc_of_nonBuild (nonBuild_copyGlob hf (by decide) (by decide)) n
        (by decide) (by decide)]
      exact hs
    exact ⟨c, hsrc, hd⟩

theorem claim_C10_witness :
    lookup fsC9iOut (["src", "static", "images", "x.png"] : Path) =
      lookup fsC9i (["src", "static", "images", "x.png"] : Path) ∧
    lookup fsC9iOut (build_static ++ ["css", "style.css"]) =
      lookup fsC9i (build_static ++ ["css", "style.css"]) ∧
    lookup fsC9 (["src", "static", "js", "lib.js"] : Path) =
      lookup fsC9 (["src", "static", "js", "lib.js"] : Path) :=
  ⟨(claim_C10 fsC9i fsC9iOut (.inl rfl)).2.1 _ rfl,
    (claim_C10 fsC9i fsC9iOut (.inl rfl)).2.2.1 "style.css",
    (claim_C10 fsC9 fsC9 (.inr ⟨.isADirectory, rfl⟩)).2.1 _ rfl⟩

end BpmClock
